import Mathlib

/-
  Verification of the UserState engine of the Unirep repository
  (src/packages/circuits/src/index.ts, class UserState extends Synchronizer).

  The embedding translates the TypeScript source into pure Lean functions.
  Stateful methods mutate `this`; they are embedded as functions
  USState → (USState × Option String): the first component is the object
  state after the call (including any mutations made before an exception),
  the second is `some msg` when the call throws (assert failure) and `none`
  when it returns normally.

  Numbers: the source uses JS number / BigInt / BigNumber for epochs, leaf
  values, reputation amounts.  They are embedded as Nat (they are
  non-negative field elements / counters in the source), except
  latestGSTLeafIndex which is embedded as Int because the source computes
  it as (number of GST leaves) - 1, which is -1 for an empty tree.

  Cryptographic primitives (hash5, hashLeftRight, genEpochKey,
  genReputationNullifier, Reputation from the sibling @unirep packages) are
  not part of src/; they are modelled from the spec as injective encodings
  (see the individual doc comments).
-/

namespace Unirep

/-- Injective encoding of a list of naturals, used to model the Poseidon
style hashes of the crypto package (which is outside src/) as injective
computable functions. -/
def encodeList : List Nat → Nat
  | [] => 0
  | x :: xs => Nat.pair x (encodeList xs) + 1

/-- Modelled from the spec: hash5 of the crypto collaborator, a 5-ary keyed
hash ("blinded user state: a keyed hash of identity secret, root, epoch,
nonce"); the source sometimes calls it with 4 arguments, which the crypto
package zero-pads, so call sites pass an explicit trailing 0 here. -/
def hash5 (a b c d e : Nat) : Nat := encodeList [0, a, b, c, d, e]

/-- Modelled from the spec: hashLeftRight of the crypto collaborator
("new GST leaf = hash(commitment, root)", "hashChain' = H(attestationHash,
hashChain)"). -/
def hashLeftRight (a b : Nat) : Nat := encodeList [1, a, b]

/-- Modelled from the spec: genEpochKey of ./utils (not in src/),
"Epoch key: hash(identityNullifier, epoch, nonce)", deterministic per
(identity, epoch, nonce).  The epochTreeDepth truncation parameter is not
modelled; the spec treats distinct (epoch, nonce) pairs as yielding
distinct keys. -/
def genEpochKey (idNullifier epoch nonce : Nat) : Nat :=
  encodeList [2, idNullifier, epoch, nonce]

/-- Modelled from the spec: genReputationNullifier of ./utils (not in
src/), "Nullifier: derived value marking a (identity, purpose) pair as
consumed". -/
def genReputationNullifier (idNullifier epoch nonce attesterId : Nat) : Nat :=
  encodeList [3, idNullifier, epoch, nonce, attesterId]

/-- Reputation record accumulated per attester (class Reputation of
./Reputation, not in src/). -/
structure Reputation where
  posRep : Nat
  negRep : Nat
  graffiti : Nat
  signUp : Nat
deriving Repr, DecidableEq

/-- Modelled from the spec: the all-zero default reputation record
("default (all-zero) leaf for unseen attesters"). -/
def Reputation.default : Reputation := ⟨0, 0, 0, 0⟩

/-- Modelled from the spec: Reputation.update — "posRep/negRep additive;
graffiti replaced wholesale only when overwrite flag set; signUp is
monotonic OR".  The source derives the overwrite flag as
graffiti.toString() != '0', i.e. a nonzero attestation graffiti
overwrites. -/
def Reputation.update (r : Reputation) (p n g s : Nat) : Reputation :=
  { posRep := r.posRep + p
    negRep := r.negRep + n
    graffiti := if g ≠ 0 then g else r.graffiti
    signUp := if r.signUp ≠ 0 ∨ s ≠ 0 then 1 else 0 }

/-- Modelled from the spec: Reputation.hash (not in src/), the user state
tree leaf value of a reputation record. -/
def Reputation.hash (r : Reputation) : Nat :=
  encodeList [4, r.posRep, r.negRep, r.graffiti, r.signUp]

/-- An attestation as stored with an epoch key ({attesterId, posRep,
negRep, graffiti, signUp}).  The signUp flag is a 0/1 field element. -/
structure Att where
  attesterId : Nat
  posRep : Nat
  negRep : Nat
  graffiti : Nat
  signUp : Nat
deriving Repr, DecidableEq

/-- Modelled from the spec: Attestation.hash of @unirep/contracts (a hash5
of the five fields), used for the running hash chain. -/
def Att.hash (a : Att) : Nat :=
  encodeList [5, a.attesterId, a.posRep, a.negRep, a.graffiti, a.signUp]

/-- IUserStateLeaf: one user-state-tree leaf, a reputation record keyed by
attesterId. -/
structure Leaf where
  attesterId : Nat
  reputation : Reputation
deriving Repr, DecidableEq

theorem Leaf.eta (l : Leaf) : (⟨l.attesterId, l.reputation⟩ : Leaf) = l := rfl

/-- Key-value upsert used to model assignment into a sparse tree /
JS object keyed by a number: replaces the first binding of the key in
place, or appends a new binding. -/
def upsertKV : List (Nat × Nat) → Nat → Nat → List (Nat × Nat)
  | [], k, v => [(k, v)]
  | (k', v') :: rest, k, v =>
      if k' = k then (k, v) :: rest else (k', v') :: upsertKV rest k v

/-- Insertion (by a numeric key, ascending, stable) used to canonicalise
key order. -/
def insortBy {α : Type} (f : α → Nat) (x : α) : List α → List α
  | [] => [x]
  | y :: ys => if f x ≤ f y then x :: y :: ys else y :: insortBy f x ys

/-- Ascending stable sort by a numeric key. -/
def sortByKey {α : Type} (f : α → Nat) (l : List α) : List α :=
  l.foldr (insortBy f) []

/-- Modelled from the spec: the root of the sparse user state tree
(SparseMerkleTree of the crypto collaborator, not in src/): "Sparse tree:
fixed depth, key-addressed ..., default leaf for absent keys, supports
point update".  The root is modelled as an injective function of the
stored key-to-leaf assignment (entries canonicalised by key order). -/
def ustRoot (t : List (Nat × Nat)) : Nat :=
  encodeList (6 :: (sortByKey Prod.fst t).map (fun p => Nat.pair p.1 p.2))

/-- USTree.update leaf.attesterId leaf.reputation.hash (point update of the
sparse tree). -/
def ustUpdate (t : List (Nat × Nat)) (k v : Nat) : List (Nat × Nat) :=
  upsertKV t k v

/-- _genUserStateTreeFromLeaves: builds the user state tree by updating an
empty sparse tree with each leaf's reputation hash. -/
def treeFromLeaves (leaves : List Leaf) : List (Nat × Nat) :=
  leaves.foldl (fun t l => ustUpdate t l.attesterId l.reputation.hash) []

/-- getRepByAttester: the first state leaf with the given attesterId, or
the default record if none. -/
def getRepByAttester (leaves : List Leaf) (attesterId : Nat) : Reputation :=
  match leaves.find? (fun l => l.attesterId == attesterId) with
  | some l => l.reputation
  | none => Reputation.default

/--
The identity-scoped mutable state of class UserState:
commitment and identityNullifier come from the ZkIdentity;
hasSignedUp, latestTransitionedEpoch, latestGSTLeafIndex,
latestUserStateLeaves, transitionedFromAttestations are the committed
fields; stagedGSTLeaf / stagedUSTLeaves are this.newUserState
(newGSTLeaf, newUSTLeaves), the staged-but-uncommitted transition data.
-/
structure USState where
  idNullifier : Nat
  commitment : Nat
  hasSignedUp : Bool
  latestTransitionedEpoch : Nat
  latestGSTLeafIndex : Int
  latestUserStateLeaves : List Leaf
  transitionedFromAttestations : List (Nat × List Att)
  stagedGSTLeaf : Nat
  stagedUSTLeaves : List Leaf
deriving Repr, DecidableEq

/-- Resetting this.newUserState to { newGSTLeaf: BigInt(0), newUSTLeaves: [] }. -/
def clearStaged (st : USState) : USState :=
  { st with stagedGSTLeaf := 0, stagedUSTLeaves := [] }

/-- JS truthiness of an optional numeric argument (undefined and 0 are
falsy), used for the `if (attesterId && airdropAmount)` guard in signUp. -/
def truthyN : Option Nat → Bool
  | none => false
  | some 0 => false
  | some (_ + 1) => true

/--
signUp(epoch, identityCommitment, attesterId?, airdropAmount?).
numGSTLeaves is the value of await this.getNumGSTLeaves(epoch), a count
read from the synchronizer's database (the Synchronizer is a collaborator;
the count is passed as a parameter).  The method mutates only when the
commitment matches this.commitment; _checkUserNotSignUp throws if the user
has already signed up; when both attesterId and airdropAmount are truthy
one airdropped state leaf replaces latestUserStateLeaves.
-/
def USState.signUp (st : USState) (epoch : Nat) (identityCommitment : Nat)
    (attesterId airdropAmount : Option Nat) (numGSTLeaves : Nat) :
    USState × Option String :=
  if identityCommitment = st.commitment then
    if st.hasSignedUp then (st, some "UserState: User has already signed up")
    else
      let leaves :=
        if truthyN attesterId && truthyN airdropAmount then
          [⟨attesterId.getD 0, Reputation.default.update (airdropAmount.getD 0) 0 0 1⟩]
        else st.latestUserStateLeaves
      ({ st with
          latestUserStateLeaves := leaves
          latestTransitionedEpoch := epoch
          latestGSTLeafIndex := (numGSTLeaves : Int) - 1
          hasSignedUp := true }, none)
  else (st, none)

/--
_transition(newLeaf).  currEpoch is (await this.loadCurrentEpoch()).number
and numGSTLeavesTo is await this.getNumGSTLeaves(transitionToEpoch), both
read from the synchronizer collaborator and passed as parameters.
On `newLeaf !== newState.newGSTLeaf` the source logs and returns normally;
the `fromEpoch < transitionToEpoch` assert throws, leaving this unchanged
(no field of this is written before the assert).
-/
def USState.transitionPriv (st : USState) (newLeaf : Nat) (currEpoch : Nat)
    (numGSTLeavesTo : Nat) : USState × Option String :=
  if !st.hasSignedUp then (st, some "UserState: User has not signed up yet")
  else if newLeaf ≠ st.stagedGSTLeaf then (st, none)
  else if ¬ st.latestTransitionedEpoch < currEpoch then
    (st, some "Can not transition to same epoch")
  else
    ({ st with
        latestTransitionedEpoch := currEpoch
        latestGSTLeafIndex := (numGSTLeavesTo : Int) - 1
        latestUserStateLeaves := st.stagedUSTLeaves }, none)

/--
userStateTransition(fromEpoch, GSTLeaf): calls _transition only when the
user has signed up and latestTransitionedEpoch === fromEpoch, then resets
this.newUserState.  When _transition throws, the exception propagates and
the reset statement is never reached. -/
def USState.userStateTransition (st : USState) (fromEpoch : Nat) (GSTLeaf : Nat)
    (currEpoch : Nat) (numGSTLeavesTo : Nat) : USState × Option String :=
  if st.hasSignedUp ∧ st.latestTransitionedEpoch = fromEpoch then
    match st.transitionPriv GSTLeaf currEpoch numGSTLeavesTo with
    | (st', some e) => (st', some e)
    | (st', none) => (clearStaged st', none)
  else (clearStaged st, none)

/--
_updateUserStateLeaf(attestation, stateLeaves): folds one attestation into
the leaf array — the first leaf with a matching attesterId gets
leaf.reputation = leaf.reputation.update(...), otherwise a fresh leaf
(default reputation updated by the attestation) is pushed at the end.
-/
def updateUserStateLeaf (a : Att) : List Leaf → List Leaf
  | [] => [⟨a.attesterId, Reputation.default.update a.posRep a.negRep a.graffiti a.signUp⟩]
  | l :: rest =>
      if l.attesterId = a.attesterId then
        { l with reputation := l.reputation.update a.posRep a.negRep a.graffiti a.signUp } :: rest
      else l :: updateUserStateLeaf a rest

/-- Sequential fold of a list of attestations into state leaves via
_updateUserStateLeaf, in ledger log order. -/
def foldAtts (ls : List Leaf) (as : List Att) : List Leaf :=
  as.foldl (fun acc a => updateUserStateLeaf a acc) ls

/-- Lookup in the transitionedFromAttestations map (JS object keyed by the
epoch key); a missing key reads as an empty list (the source iterates with
attestations?.length, so undefined behaves as no attestations). -/
def lookupAtts (tfa : List (Nat × List Att)) (k : Nat) : List Att :=
  match tfa.find? (fun p => p.1 == k) with
  | some p => p.2
  | none => []

/-- Assignment this.transitionedFromAttestations[epochKey] = ... (JS object
property write: replace if present, append otherwise). -/
def upsertAtts : List (Nat × List Att) → Nat → List Att → List (Nat × List Att)
  | [], k, v => [(k, v)]
  | (k', v') :: rest, k, v =>
      if k' = k then (k, v) :: rest else (k', v') :: upsertAtts rest k v

/--
epochTransition(epoch).  K is this.settings.numEpochKeyNoncePerEpoch and
db maps an epoch key to the attestations returned by
this.getAttestations(epochKey) (a read of the synchronizer collaborator's
database).

When epoch === latestTransitionedEpoch the source runs _saveAttestations
(whose _checkUserSignUp throws, before any write, if the user never signed
up) and then _genNewUserStateAfterTransition, storing the result in
this.newUserState (staged, not committed).

Aliasing: _genNewUserStateAfterTransition starts from
this.latestUserStateLeaves.slice() — a SHALLOW copy sharing the leaf
objects — and _updateUserStateLeaf assigns leaf.reputation through those
shared objects.  Hence for every original leaf that receives attestations,
the update is also visible through this.latestUserStateLeaves, while
pushed (fresh-attester) leaves are appended to the copy only.  The net
effect on this.latestUserStateLeaves is therefore the first
|latestUserStateLeaves| entries of the fold result, which is what this
embedding records.
-/
def USState.epochTransition (st : USState) (K : Nat) (db : Nat → List Att)
    (epoch : Nat) : USState × Option String :=
  if epoch = st.latestTransitionedEpoch then
    if !st.hasSignedUp then (st, some "UserState: User has not signed up yet")
    else
      let fromEpoch := st.latestTransitionedEpoch
      let keys := (List.range K).map (genEpochKey st.idNullifier fromEpoch)
      let tfa := keys.foldl (fun t k => upsertAtts t k (db k)) st.transitionedFromAttestations
      let allAtts := (keys.map (lookupAtts tfa)).flatten
      let newLeaves := foldAtts st.latestUserStateLeaves allAtts
      ({ st with
          transitionedFromAttestations := tfa
          latestUserStateLeaves := newLeaves.take st.latestUserStateLeaves.length
          stagedGSTLeaf := hashLeftRight st.commitment (ustRoot (treeFromLeaves newLeaves))
          stagedUSTLeaves := newLeaves }, none)
  else (st, none)

section ClaimC1

/-- A concrete state used by the C1 counterexample: signed up in epoch 5
with a nonzero staged GST leaf. -/
def stC1 : USState :=
  { idNullifier := 3, commitment := 10, hasSignedUp := true
    latestTransitionedEpoch := 5, latestGSTLeafIndex := 0
    latestUserStateLeaves := [], transitionedFromAttestations := []
    stagedGSTLeaf := 7, stagedUSTLeaves := [⟨1, ⟨2, 0, 0, 0⟩⟩] }

/-- C1 counterexample: with the user signed up, latestTransitionedEpoch =
fromEpoch = 5 and newLeaf equal to the staged leaf 7 — exactly the claim's
commit conditions — but the synchronizer's current epoch still 5, the call
throws the 'Can not transition to same epoch' assert: the committed state
is NOT updated and the staged state is NOT cleared, contradicting both
halves of the claim. -/
theorem c1_counterexample :
    stC1.hasSignedUp = true ∧ stC1.latestTransitionedEpoch = 5 ∧
    stC1.stagedGSTLeaf = 7 ∧
    stC1.userStateTransition 5 7 5 9 =
      (stC1, some "Can not transition to same epoch") ∧
    (stC1.userStateTransition 5 7 5 9).1.stagedGSTLeaf = 7 := by
  refine ⟨rfl, rfl, rfl, ?_, ?_⟩ <;> decide

/-- C1 amended: userStateTransition(fromEpoch, newLeaf) commits the staged
state iff the user has signed up, latestTransitionedEpoch = fromEpoch,
newLeaf equals the staged leaf AND fromEpoch is strictly below the
synchronizer's current epoch; the staged state is cleared on every normal
return, but when the first three conditions hold and the epoch bound
fails, the call throws leaving all state — including the staged state —
unchanged. -/
theorem c1_amended (st : USState) (fromEpoch newLeaf currEpoch numGSTLeavesTo : Nat) :
    (¬ (st.hasSignedUp = true ∧ st.latestTransitionedEpoch = fromEpoch) →
        st.userStateTransition fromEpoch newLeaf currEpoch numGSTLeavesTo =
          (clearStaged st, none)) ∧
    (st.hasSignedUp = true → st.latestTransitionedEpoch = fromEpoch →
      newLeaf ≠ st.stagedGSTLeaf →
        st.userStateTransition fromEpoch newLeaf currEpoch numGSTLeavesTo =
          (clearStaged st, none)) ∧
    (st.hasSignedUp = true → st.latestTransitionedEpoch = fromEpoch →
      newLeaf = st.stagedGSTLeaf → fromEpoch < currEpoch →
        st.userStateTransition fromEpoch newLeaf currEpoch numGSTLeavesTo =
          (clearStaged { st with
              latestTransitionedEpoch := currEpoch
              latestGSTLeafIndex := (numGSTLeavesTo : Int) - 1
              latestUserStateLeaves := st.stagedUSTLeaves }, none)) ∧
    (st.hasSignedUp = true → st.latestTransitionedEpoch = fromEpoch →
      newLeaf = st.stagedGSTLeaf → ¬ fromEpoch < currEpoch →
        st.userStateTransition fromEpoch newLeaf currEpoch numGSTLeavesTo =
          (st, some "Can not transition to same epoch")) := by
  refine ⟨?_, ?_, ?_, ?_⟩
  · intro h
    simp only [USState.userStateTransition, if_neg h]
  · intro h1 h2 h3
    simp [USState.userStateTransition, USState.transitionPriv, h1, h2, h3]
  · intro h1 h2 h3 h4
    simp [USState.userStateTransition, USState.transitionPriv, h1, h2, h3, h4]
  · intro h1 h2 h3 h4
    simp [USState.userStateTransition, USState.transitionPriv, h1, h2, h3, h4]

/-- Witness for c1_amended: a concrete successful commit (conditions hold,
current epoch 6 > fromEpoch 5) commits the staged leaves and clears the
staged state. -/
theorem c1_amended_witness :
    stC1.userStateTransition 5 7 6 9 =
      (clearStaged { stC1 with
          latestTransitionedEpoch := 6
          latestGSTLeafIndex := (9 : Int) - 1
          latestUserStateLeaves := stC1.stagedUSTLeaves }, none) :=
  (c1_amended stC1 5 7 6 9).2.2.1 rfl rfl rfl (by decide)

end ClaimC1

section ClaimC3

/-- A concrete state used by the C3 counterexample: staged data present,
latestTransitionedEpoch = 5. -/
def stC3 : USState :=
  { idNullifier := 3, commitment := 10, hasSignedUp := true
    latestTransitionedEpoch := 5, latestGSTLeafIndex := 0
    latestUserStateLeaves := [], transitionedFromAttestations := []
    stagedGSTLeaf := 7, stagedUSTLeaves := [⟨1, ⟨2, 0, 0, 0⟩⟩] }

/-- C3 counterexample: calling userStateTransition with fromEpoch 4 ≠
latestTransitionedEpoch 5 returns normally (no failure is reported to the
caller) and CLEARS the staged transition state, so the identity state is
not left entirely unchanged as the claim requires. -/
theorem c3_counterexample :
    stC3.latestTransitionedEpoch ≠ 4 ∧
    stC3.userStateTransition 4 0 9 3 = (clearStaged stC3, none) ∧
    clearStaged stC3 ≠ stC3 := by
  refine ⟨by decide, by decide, by decide⟩

/-- C3 amended: when fromEpoch differs from latestTransitionedEpoch,
userStateTransition leaves hasSignedUp, latestTransitionedEpoch,
latestGSTLeafIndex and latestUserStateLeaves unchanged, but it
unconditionally clears the staged transition state and returns normally
without reporting any failure. -/
theorem c3_amended (st : USState) (fromEpoch newLeaf currEpoch numGSTLeavesTo : Nat)
    (h : fromEpoch ≠ st.latestTransitionedEpoch) :
    st.userStateTransition fromEpoch newLeaf currEpoch numGSTLeavesTo =
      (clearStaged st, none) := by
  simp only [USState.userStateTransition]
  rw [if_neg]
  rintro ⟨-, h2⟩
  exact h h2.symm

/-- Witness for c3_amended at the concrete state stC3 with fromEpoch 4. -/
theorem c3_amended_witness :
    stC3.userStateTransition 4 0 9 3 = (clearStaged stC3, none) :=
  c3_amended stC3 4 0 9 3 (by decide)

end ClaimC3

section ClaimC6

/-- A concrete fresh (not signed up) state for the C6 counterexample. -/
def stC6 : USState :=
  { idNullifier := 3, commitment := 10, hasSignedUp := false
    latestTransitionedEpoch := 0, latestGSTLeafIndex := 0
    latestUserStateLeaves := [], transitionedFromAttestations := []
    stagedGSTLeaf := 0, stagedUSTLeaves := [] }

/-- C6 counterexample: the airdrop option IS provided (airdropAmount =
some 5) with a matching commitment, but because attesterId is absent the
source's `if (attesterId && airdropAmount)` guard fails and NO reputation
leaf is seeded, contradicting the claim that a provided airdrop seeds
exactly one attester's leaf. -/
theorem c6_counterexample :
    (stC6.signUp 1 10 none (some 5) 1).2 = none ∧
    (stC6.signUp 1 10 none (some 5) 1).1.hasSignedUp = true ∧
    (stC6.signUp 1 10 none (some 5) 1).1.latestUserStateLeaves = [] := by
  refine ⟨by decide, by decide, by decide⟩

/-- C6 amended: signUp(epoch, commitment, attesterId?, airdrop?) mutates
the state only when commitment equals this identity's own commitment;
if the commitment matches and the user is already signed up the call
fails with an assertion; a reputation leaf is seeded at sign-up iff BOTH
attesterId and airdropAmount are provided and nonzero (JS truthiness), in
which case exactly one leaf (the airdropped attester's) is seeded. -/
theorem c6_amended (st : USState) (epoch identityCommitment : Nat)
    (attesterId airdropAmount : Option Nat) (numGSTLeaves : Nat) :
    (identityCommitment ≠ st.commitment →
        st.signUp epoch identityCommitment attesterId airdropAmount numGSTLeaves =
          (st, none)) ∧
    (identityCommitment = st.commitment → st.hasSignedUp = true →
        st.signUp epoch identityCommitment attesterId airdropAmount numGSTLeaves =
          (st, some "UserState: User has already signed up")) ∧
    (identityCommitment = st.commitment → st.hasSignedUp = false →
        st.signUp epoch identityCommitment attesterId airdropAmount numGSTLeaves =
          ({ st with
              latestUserStateLeaves :=
                if truthyN attesterId && truthyN airdropAmount then
                  [⟨attesterId.getD 0,
                    Reputation.default.update (airdropAmount.getD 0) 0 0 1⟩]
                else st.latestUserStateLeaves
              latestTransitionedEpoch := epoch
              latestGSTLeafIndex := (numGSTLeaves : Int) - 1
              hasSignedUp := true }, none)) := by
  refine ⟨?_, ?_, ?_⟩
  · intro h
    simp only [USState.signUp, if_neg h]
  · intro h1 h2
    simp only [USState.signUp, if_pos h1, h2, if_true]
  · intro h1 h2
    simp only [USState.signUp, if_pos h1, h2, Bool.false_eq_true, if_false]

/-- Witness for c6_amended: with both attesterId = some 2 and airdrop =
some 5 provided and nonzero, exactly the one airdropped leaf is seeded. -/
theorem c6_amended_witness :
    stC6.signUp 1 10 (some 2) (some 5) 1 =
      ({ stC6 with
          latestUserStateLeaves := [⟨2, Reputation.default.update 5 0 0 1⟩]
          latestTransitionedEpoch := 1
          latestGSTLeafIndex := (1 : Int) - 1
          hasSignedUp := true }, none) := by
  have h := (c6_amended stC6 1 10 (some 2) (some 5) 1).2.2 rfl rfl
  simpa using h

end ClaimC6

/-- Settings of the synchronizer relevant to reputation proofs
(this.settings). -/
structure RepSettings where
  maxReputationBudget : Nat
  numEpochKeyNoncePerEpoch : Nat
deriving Repr, DecidableEq

/-- The validation-relevant circuit inputs assembled by
genProveReputationProof (the fields of circuitInputs that depend on the
checks; Merkle path data for the prover collaborator is omitted). -/
structure RepCircuitInputs where
  epoch : Nat
  epochKeyNonce : Nat
  epochKey : Nat
  posRep : Nat
  negRep : Nat
  graffiti : Nat
  signUp : Nat
  repNullifiersAmount : Nat
  selectors : List Nat
  repNonce : List Int
  minRep : Nat
  proveGraffiti : Nat
  graffitiPreImage : Nat
deriving Repr, DecidableEq

/--
The duplicate-nonce scan of genProveReputationProof: for i in
[0, maxReputationBudget), a non-(-1) entry must not repeat (the nonceExist
object), increments repNullifiersAmount and selects 1; a -1 entry selects
0.  Returns none when the duplicate assert fires. -/
def dupScan : List Int → List Int → Nat → List Nat → Option (Nat × List Nat)
  | [], _, cnt, sels => some (cnt, sels)
  | x :: rest, seen, cnt, sels =>
      if x ≠ -1 then
        if x ∈ seen then none
        else dupScan rest (x :: seen) (cnt + 1) (sels ++ [1])
      else dupScan rest seen cnt (sels ++ [0])

/-- The nonce-starter search loop of genProveReputationProof: the first n
(scanning k values upward from start) with p n = true, if any. -/
def firstUnspentFrom (p : Nat → Bool) : Nat → Nat → Option Nat
  | _, 0 => none
  | start, k + 1 => if p start then some start else firstUnspentFrom p (start + 1) k

/-- posRep - negRep of the caller's accumulated reputation with the given
attester, the bound of the nonce-starter search. -/
def diffOf (st : USState) (attesterId : Nat) : Int :=
  ((getRepByAttester st.latestUserStateLeaves attesterId).posRep : Int) -
    ((getRepByAttester st.latestUserStateLeaves attesterId).negRep : Int)

/--
genProveReputationProof(attesterId, epkNonce, minRep?, proveGraffiti?,
graffitiPreImage?, nonceList?).  nullifierExistsInDb is
this.nullifierExist of the synchronizer collaborator (a database read),
passed as a parameter; the method performs no writes, so it is a pure
function of the state and that database.  Assert messages follow the
source (template literals flattened to fixed strings). -/
def USState.genProveReputationProof (st : USState) (s : RepSettings)
    (nullifierExistsInDb : Nat → Bool) (attesterId : Nat) (epkNonce : Nat)
    (minRep proveGraffiti graffitiPreImage : Option Nat)
    (nonceList? : Option (List Int)) : Except String RepCircuitInputs :=
  if !st.hasSignedUp then .error "UserState: User has not signed up yet"
  else if ¬ epkNonce < s.numEpochKeyNoncePerEpoch then
    .error "epochKeyNonce must be less than max epoch nonce"
  else
    let nonceList := nonceList?.getD (List.replicate s.maxReputationBudget (-1))
    if nonceList.length ≠ s.maxReputationBudget then
      .error "Length of nonce list should be maxReputationBudget"
    else
      let epoch := st.latestTransitionedEpoch
      let rep := getRepByAttester st.latestUserStateLeaves attesterId
      match dupScan nonceList [] 0 [] with
      | none => .error "cannot submit duplicated nonce to compute reputation nullifiers"
      | some (repNullifiersAmount, selectors) =>
        let diff : Int := (rep.posRep : Int) - (rep.negRep : Int)
        let unspent : Nat → Bool := fun n =>
          !nullifierExistsInDb (genReputationNullifier st.idNullifier epoch n attesterId)
        let okInputs : RepCircuitInputs :=
          { epoch := epoch, epochKeyNonce := epkNonce
            epochKey := genEpochKey st.idNullifier epoch epkNonce
            posRep := rep.posRep, negRep := rep.negRep
            graffiti := rep.graffiti, signUp := rep.signUp
            repNullifiersAmount := repNullifiersAmount
            selectors := selectors, repNonce := nonceList
            minRep := minRep.getD 0
            proveGraffiti := proveGraffiti.getD 0
            graffitiPreImage := graffitiPreImage.getD 0 }
        if 0 < repNullifiersAmount then
          match firstUnspentFrom unspent 0 diff.toNat with
          | none => .error "All nullifiers are spent"
          | some nonceStarter =>
            if (nonceStarter : Int) + repNullifiersAmount ≤ diff then .ok okInputs
            else .error "Not enough reputation to spend"
        else .ok okInputs

/-- The non-(-1) entries of a requested nonce list. -/
def requestedNonces (nl : List Int) : List Int := nl.filter (fun x => x != -1)

theorem dupScan_eq_none_iff (nl : List Int) : ∀ (seen : List Int) (cnt : Nat) (sels : List Nat),
    dupScan nl seen cnt sels = none ↔
      (¬ (requestedNonces nl).Nodup ∨ ∃ x ∈ nl, x ≠ -1 ∧ x ∈ seen) := by
  induction nl with
  | nil =>
      intro seen cnt sels
      simp [dupScan, requestedNonces]
  | cons x rest ih =>
      intro seen cnt sels
      by_cases hx : x = -1
      · subst hx
        simp only [dupScan, ne_eq, not_true_eq_false, if_false, ih]
        simp [requestedNonces]
      · by_cases hmem : x ∈ seen
        · simp only [dupScan, if_pos hx, if_pos hmem]
          constructor
          · intro _
            exact Or.inr ⟨x, List.mem_cons_self _ _, hx, hmem⟩
          · intro _
            trivial
        · simp only [dupScan, if_pos hx, if_neg hmem, ih]
          have hfil : requestedNonces (x :: rest) = x :: requestedNonces rest := by
            simp [requestedNonces, hx]
          rw [hfil]
          constructor
          · rintro (hnd | ⟨y, hy, hy1, hy2⟩)
            · exact Or.inl (by simp_all [List.nodup_cons])
            · rcases List.mem_cons.mp hy2 with h | h
              · subst h
                refine Or.inl ?_
                simp only [List.nodup_cons, not_and]
                intro hx2
                exact absurd (List.mem_filter.mpr ⟨hy, by simpa using hy1⟩) hx2
              · exact Or.inr ⟨y, List.mem_cons_of_mem _ hy, hy1, h⟩
          · rintro (hnd | ⟨y, hy, hy1, hy2⟩)
            · rw [List.nodup_cons] at hnd
              push_neg at hnd
              by_cases hxf : x ∈ requestedNonces rest
              · rcases List.mem_filter.mp hxf with ⟨hxr, -⟩
                exact Or.inr ⟨x, hxr, hx, List.mem_cons_self _ _⟩
              · exact Or.inl (hnd hxf)
            · rcases List.mem_cons.mp hy with h | h
              · exact absurd hy2 (h ▸ hmem)
              · exact Or.inr ⟨y, h, hy1, List.mem_cons_of_mem _ hy2⟩

theorem dupScan_eq_some (nl : List Int) : ∀ (seen : List Int) (cnt : Nat) (sels : List Nat),
    (requestedNonces nl).Nodup → (∀ x ∈ nl, x ≠ -1 → x ∉ seen) →
    ∃ sels2, dupScan nl seen cnt sels = some (cnt + (requestedNonces nl).length, sels2) := by
  induction nl with
  | nil =>
      intro seen cnt sels _ _
      exact ⟨sels, by simp [dupScan, requestedNonces]⟩
  | cons x rest ih =>
      intro seen cnt sels hnd hseen
      by_cases hx : x = -1
      · subst hx
        have hfil : requestedNonces ((-1 : Int) :: rest) = requestedNonces rest := by
          simp [requestedNonces]
        rw [hfil] at hnd ⊢
        simpa [dupScan] using
          ih seen cnt (sels ++ [0]) hnd (fun y hy => hseen y (List.mem_cons_of_mem _ hy))
      · have hfil : requestedNonces (x :: rest) = x :: requestedNonces rest := by
          simp [requestedNonces, hx]
        rw [hfil] at hnd ⊢
        rw [List.nodup_cons] at hnd
        have hmem : x ∉ seen := hseen x (List.mem_cons_self _ _) hx
        have hseen' : ∀ y ∈ rest, y ≠ -1 → y ∉ x :: seen := by
          intro y hy hy1 hy2
          rcases List.mem_cons.mp hy2 with h | h
          · exact hnd.1 (h ▸ List.mem_filter.mpr ⟨hy, by simpa using hy1⟩)
          · exact hseen y (List.mem_cons_of_mem _ hy) hy1 h
        obtain ⟨sels2, hs⟩ := ih (x :: seen) (cnt + 1) (sels ++ [1]) hnd.2 hseen'
        refine ⟨sels2, ?_⟩
        simp only [dupScan, if_pos hx, if_neg hmem, hs, List.length_cons]
        congr 2
        omega

theorem firstUnspentFrom_eq_none_iff (p : Nat → Bool) :
    ∀ (k start : Nat), firstUnspentFrom p start k = none ↔ ∀ j < k, p (start + j) = false := by
  intro k
  induction k with
  | zero =>
      intro start
      simp [firstUnspentFrom]
  | succ k ih =>
      intro start
      by_cases hp : p start
      · simp only [firstUnspentFrom, if_pos hp]
        constructor
        · intro h
          exact absurd h (by simp)
        · intro h
          have := h 0 (Nat.succ_pos k)
          simp [hp] at this
      · simp only [firstUnspentFrom, if_neg hp, ih]
        constructor
        · intro h j hj
          cases j with
          | zero =>
              simpa using (Bool.eq_false_iff.mpr hp)
          | succ j =>
              have e : start + 1 + j = start + (j + 1) := by omega
              have := h j (Nat.lt_of_succ_lt_succ hj)
              rwa [e] at this
        · intro h j hj
          have e : start + 1 + j = start + (j + 1) := by omega
          have := h (j + 1) (Nat.succ_lt_succ hj)
          rwa [← e] at this

theorem firstUnspentFrom_eq_some (p : Nat → Bool) :
    ∀ (k start j : Nat), j < k → p (start + j) = true → (∀ m < j, p (start + m) = false) →
    firstUnspentFrom p start k = some (start + j) := by
  intro k
  induction k with
  | zero =>
      intro start j hj
      exact absurd hj (Nat.not_lt_zero j)
  | succ k ih =>
      intro start j hj hp hbelow
      cases j with
      | zero =>
          simp only [Nat.add_zero] at hp
          simp [firstUnspentFrom, hp]
      | succ j =>
          have h0 : p start = false := by simpa using hbelow 0 (Nat.succ_pos j)
          have e : start + 1 + j = start + (j + 1) := by omega
          have hrec := ih (start + 1) j (Nat.lt_of_succ_lt_succ hj)
            (by rw [e]; exact hp)
            (fun m hm => by
              have em : start + 1 + m = start + (m + 1) := by omega
              rw [em]
              exact hbelow (m + 1) (Nat.succ_lt_succ hm))
          simp only [firstUnspentFrom, h0, Bool.false_eq_true, if_false]
          rwa [e] at hrec

section ClaimC4

/-- A concrete reputation state for C4: signed up, posRep 3 / negRep 0
with attester 1 in epoch 2. -/
def stC4 : USState :=
  { idNullifier := 3, commitment := 10, hasSignedUp := true
    latestTransitionedEpoch := 2, latestGSTLeafIndex := 0
    latestUserStateLeaves := [⟨1, ⟨3, 0, 0, 0⟩⟩], transitionedFromAttestations := []
    stagedGSTLeaf := 0, stagedUSTLeaves := [] }

/-- Settings for the C4 counterexample: reputation budget 2, one epoch-key
nonce per epoch. -/
def sC4 : RepSettings := ⟨2, 1⟩

/-- A synchronizer nullifier database for C4 in which exactly the
reputation nullifier of nonce 1 (identity 3, epoch 2, attester 1) is
already spent. -/
def spentC4 : Nat → Bool := fun m => m == genReputationNullifier 3 2 1 1

/-- C4 counterexample: two nonces are requested ([0, 1]) and NO starting
nonce n in [0, posRep - negRep) = [0, 3) has its whole window of 2
nullifiers unspent (nonce 1's nullifier is spent), so the claim demands an
InsufficientReputation failure — yet the call succeeds: the source only
checks that the FIRST unspent nonce (0) leaves numeric room
(0 + 2 <= 3), never rechecking the spent nullifier inside the window. -/
theorem c4_counterexample :
    stC4.hasSignedUp = true ∧
    (∃ r, stC4.genProveReputationProof sC4 spentC4 1 0 none none none (some [0, 1]) =
      Except.ok r) ∧
    (∀ n : Nat, n < 3 →
      ¬ ((∀ m : Nat, m < n + 2 → n ≤ m →
            spentC4 (genReputationNullifier 3 2 m 1) = false) ∧
         n + 2 ≤ 3)) := by
  refine ⟨rfl, ⟨_, rfl⟩, by decide⟩

/-- C4 amended: under the sign-up, epoch-key-nonce and list-length
validations, (a) a duplicated non-(-1) nonce in the list fails with
DuplicateNullifier, and (b) when at least one nonce is requested the call
fails iff the search over the FIRST unspent nullifier fails: it fails with
'All nullifiers are spent' when every nullifier in [0, posRep - negRep) is
spent, and with 'Not enough reputation to spend' when the smallest unspent
nonce n0 satisfies n0 + requestedCount > posRep - negRep; spent nullifiers
strictly inside the window above n0 are not rechecked, so no all-unspent
window is required for success. -/
theorem c4_amended (st : USState) (s : RepSettings) (db : Nat → Bool)
    (attesterId epkNonce : Nat) (minRep pg gpi : Option Nat) (nl : List Int)
    (h1 : st.hasSignedUp = true) (h2 : epkNonce < s.numEpochKeyNoncePerEpoch)
    (h3 : nl.length = s.maxReputationBudget) :
    (¬ (requestedNonces nl).Nodup →
        st.genProveReputationProof s db attesterId epkNonce minRep pg gpi (some nl) =
          .error "cannot submit duplicated nonce to compute reputation nullifiers") ∧
    ((requestedNonces nl).Nodup → 0 < (requestedNonces nl).length →
      ((∀ n : Nat, (n : Int) < diffOf st attesterId →
          db (genReputationNullifier st.idNullifier st.latestTransitionedEpoch n attesterId)
            = true) →
        st.genProveReputationProof s db attesterId epkNonce minRep pg gpi (some nl) =
          .error "All nullifiers are spent") ∧
      (∀ n0 : Nat, (n0 : Int) < diffOf st attesterId →
        db (genReputationNullifier st.idNullifier st.latestTransitionedEpoch n0 attesterId)
          = false →
        (∀ m : Nat, m < n0 →
          db (genReputationNullifier st.idNullifier st.latestTransitionedEpoch m attesterId)
            = true) →
        ((diffOf st attesterId < (n0 : Int) + (requestedNonces nl).length →
            st.genProveReputationProof s db attesterId epkNonce minRep pg gpi (some nl) =
              .error "Not enough reputation to spend") ∧
         ((n0 : Int) + (requestedNonces nl).length ≤ diffOf st attesterId →
            ∃ r, st.genProveReputationProof s db attesterId epkNonce minRep pg gpi (some nl) =
                   .ok r ∧ r.repNullifiersAmount = (requestedNonces nl).length)))) := by
  constructor
  · intro hdup
    have hscan : dupScan nl [] 0 [] = none :=
      (dupScan_eq_none_iff nl [] 0 []).mpr (Or.inl hdup)
    simp [USState.genProveReputationProof, h1, h2, h3, hscan]
  · intro hnodup hpos
    obtain ⟨sels2, hscan⟩ := dupScan_eq_some nl [] 0 [] hnodup (by simp)
    rw [Nat.zero_add] at hscan
    constructor
    · intro hall
      have hfu : firstUnspentFrom
          (fun n => !db (genReputationNullifier st.idNullifier
            st.latestTransitionedEpoch n attesterId)) 0 (diffOf st attesterId).toNat
          = none := by
        refine (firstUnspentFrom_eq_none_iff _ _ _).mpr ?_
        intro j hj
        have hj' : (j : Int) < diffOf st attesterId := Int.lt_toNat.mp hj
        simp [hall j hj']
      simp [USState.genProveReputationProof, h1, h2, h3, hscan, hpos, diffOf] at hfu ⊢
      simp [hfu]
    · intro n0 hn0 hun0 hbelow
      have hfu : firstUnspentFrom
          (fun n => !db (genReputationNullifier st.idNullifier
            st.latestTransitionedEpoch n attesterId)) 0 (diffOf st attesterId).toNat
          = some n0 := by
        have := firstUnspentFrom_eq_some
          (fun n => !db (genReputationNullifier st.idNullifier
            st.latestTransitionedEpoch n attesterId))
          (diffOf st attesterId).toNat 0 n0 (Int.lt_toNat.mpr hn0)
          (by simp [hun0]) (fun m hm => by simp [hbelow m hm])
        simpa using this
      constructor
      · intro hroom
        simp [USState.genProveReputationProof, h1, h2, h3, hscan, hpos, diffOf] at hfu ⊢
        simp [hfu]
        simpa [diffOf] using hroom
      · intro hroom
        have hcond : ((n0 : Int) + ((requestedNonces nl).length : Int) ≤
            ((getRepByAttester st.latestUserStateLeaves attesterId).posRep : Int) -
            ((getRepByAttester st.latestUserStateLeaves attesterId).negRep : Int)) := by
          simpa [diffOf] using hroom
        simp [USState.genProveReputationProof, h1, h2, h3, hscan, hpos, diffOf] at hfu ⊢
        simp [hfu, hcond]

/-- A concrete state for the c4_amended witness: posRep 3, budget 1,
nothing spent. -/
def stC4W : USState :=
  { idNullifier := 3, commitment := 10, hasSignedUp := true
    latestTransitionedEpoch := 2, latestGSTLeafIndex := 0
    latestUserStateLeaves := [⟨1, ⟨3, 0, 0, 0⟩⟩], transitionedFromAttestations := []
    stagedGSTLeaf := 0, stagedUSTLeaves := [] }

/-- Witness for c4_amended: requesting one nonce with nothing spent
succeeds with one reputation nullifier. -/
theorem c4_amended_witness :
    ∃ r, stC4W.genProveReputationProof ⟨1, 1⟩ (fun _ => false) 1 0 none none none
           (some [0]) = .ok r ∧ r.repNullifiersAmount = (requestedNonces [0]).length := by
  have h := ((c4_amended stC4W ⟨1, 1⟩ (fun _ => false) 1 0 none none none [0]
      rfl (by decide) (by decide)).2 (by decide) (by decide)).2 0 (by decide) rfl
      (fun m hm => absurd hm (Nat.not_lt_zero m))
  exact h.2 (by decide)

end ClaimC4

section ClaimC5

/-- A concrete reputation state for C5: signed up, posRep 5 with
attester 1 in epoch 2, and nothing recorded as spent. -/
def stC5 : USState :=
  { idNullifier := 3, commitment := 10, hasSignedUp := true
    latestTransitionedEpoch := 2, latestGSTLeafIndex := 0
    latestUserStateLeaves := [⟨1, ⟨5, 0, 0, 0⟩⟩], transitionedFromAttestations := []
    stagedGSTLeaf := 0, stagedUSTLeaves := [] }

/-- Settings for C5: reputation budget 2, one epoch-key nonce per epoch. -/
def sC5 : RepSettings := ⟨2, 1⟩

/-- C5 counterexample: genProveReputationProof performs no writes (it only
reads the state and the synchronizer's nullifier database), so a second
call with the overlapping nonce list [0, -1] against the unchanged state
is the same function application as the first: both calls succeed, and in
particular the second call does NOT fail with DuplicateNullifier as the
claim requires — the duplicate assert only compares entries within one
call's list, and no nullifier is marked spent by proving. -/
theorem c5_counterexample :
    (∃ r, stC5.genProveReputationProof sC5 (fun _ => false) 1 0 none none none
            (some [0, -1]) = Except.ok r ∧
          stC5.genProveReputationProof sC5 (fun _ => false) 1 0 none none none
            (some [0, -1]) = Except.ok r) ∧
    stC5.genProveReputationProof sC5 (fun _ => false) 1 0 none none none
        (some [0, -1]) ≠
      .error "cannot submit duplicated nonce to compute reputation nullifiers" := by
  refine ⟨⟨_, rfl, rfl⟩, fun h => Except.noConfusion h⟩

/-- C5 amended: under the sign-up, epoch-key-nonce and list-length
validations, a call fails with the DuplicateNullifier assert iff its OWN
nonce list repeats a non-(-1) value; the method records nothing as spent,
so overlap with the nonce list of an earlier call — with the state and the
synchronizer's nullifier database unchanged — cannot trigger it, the
repeated call being the same pure function of those inputs. -/
theorem c5_amended (st : USState) (s : RepSettings) (db : Nat → Bool)
    (attesterId epkNonce : Nat) (minRep pg gpi : Option Nat) (nl : List Int)
    (h1 : st.hasSignedUp = true) (h2 : epkNonce < s.numEpochKeyNoncePerEpoch)
    (h3 : nl.length = s.maxReputationBudget) :
    st.genProveReputationProof s db attesterId epkNonce minRep pg gpi (some nl) =
        .error "cannot submit duplicated nonce to compute reputation nullifiers" ↔
      ¬ (requestedNonces nl).Nodup := by
  constructor
  · intro hres
    by_contra hnodup
    obtain ⟨sels2, hscan⟩ := dupScan_eq_some nl [] 0 [] hnodup (by simp)
    rw [Nat.zero_add] at hscan
    rw [USState.genProveReputationProof] at hres
    simp only [h1, Bool.not_true, Bool.false_eq_true, if_false, h2, not_true_eq_false,
      Option.getD_some, h3, ne_eq, not_true_eq_false, if_false, if_true] at hres
    simp only [hscan] at hres
    revert hres
    split
    · split
      · simp
      · split
        · simp
        · simp
    · simp
  · intro hdup
    have hscan : dupScan nl [] 0 [] = none :=
      (dupScan_eq_none_iff nl [] 0 []).mpr (Or.inl hdup)
    simp [USState.genProveReputationProof, h1, h2, h3, hscan]

/-- Witness for c5_amended: a nonce list that repeats 0 within one call
does fail with the duplicate assert. -/
theorem c5_amended_witness :
    stC5.genProveReputationProof sC5 (fun _ => false) 1 0 none none none (some [0, 0]) =
      .error "cannot submit duplicated nonce to compute reputation nullifiers" :=
  (c5_amended stC5 sC5 (fun _ => false) 1 0 none none none [0, 0] rfl (by decide)
    (by decide)).mpr (by decide)

end ClaimC5

section ClaimC10

/-- C10: with the nonce list omitted (undefined, defaulted to
maxReputationBudget copies of -1) or provided with every entry equal
to -1, no reputation nullifier is requested: the call never fails with
'All nullifiers are spent' or 'Not enough reputation to spend', its result
does not depend on the synchronizer's nullifier database at all (the
unspent-nonce search is skipped), and — whenever the provided list has the
required length — it succeeds with rep_nullifiers_amount = 0, for any
reputation balance including negRep greater than posRep. -/
theorem c10_no_nullifier_request (st : USState) (s : RepSettings) (db : Nat → Bool)
    (attesterId epkNonce : Nat) (minRep pg gpi : Option Nat) (nl? : Option (List Int))
    (h1 : st.hasSignedUp = true) (h2 : epkNonce < s.numEpochKeyNoncePerEpoch)
    (hall : ∀ l, nl? = some l → ∀ x ∈ l, x = -1) :
    st.genProveReputationProof s db attesterId epkNonce minRep pg gpi nl? ≠
      .error "All nullifiers are spent" ∧
    st.genProveReputationProof s db attesterId epkNonce minRep pg gpi nl? ≠
      .error "Not enough reputation to spend" ∧
    (∀ db' : Nat → Bool,
      st.genProveReputationProof s db' attesterId epkNonce minRep pg gpi nl? =
        st.genProveReputationProof s db attesterId epkNonce minRep pg gpi nl?) ∧
    ((nl?.getD (List.replicate s.maxReputationBudget (-1))).length =
        s.maxReputationBudget →
      ∃ r, st.genProveReputationProof s db attesterId epkNonce minRep pg gpi nl? =
             .ok r ∧ r.repNullifiersAmount = 0) := by
  have hneg : ∀ x ∈ nl?.getD (List.replicate s.maxReputationBudget (-1)), x = (-1 : Int) := by
    cases nl? with
    | none =>
        intro x hx
        exact (List.eq_of_mem_replicate (by simpa using hx))
    | some l =>
        intro x hx
        exact hall l rfl x (by simpa using hx)
  have hreq : requestedNonces (nl?.getD (List.replicate s.maxReputationBudget (-1))) = [] := by
    apply List.filter_eq_nil_iff.mpr
    intro a ha
    simp [hneg a ha]
  by_cases hlen :
      (nl?.getD (List.replicate s.maxReputationBudget (-1))).length = s.maxReputationBudget
  · obtain ⟨sels2, hscan⟩ :=
      dupScan_eq_some (nl?.getD (List.replicate s.maxReputationBudget (-1))) [] 0 []
        (by rw [hreq]; exact List.nodup_nil) (by simp)
    rw [hreq] at hscan
    simp only [List.length_nil, Nat.add_zero] at hscan
    refine ⟨?_, ?_, ?_, ?_⟩
    · simp [USState.genProveReputationProof, h1, h2, hlen, hscan]
    · simp [USState.genProveReputationProof, h1, h2, hlen, hscan]
    · intro db'
      simp [USState.genProveReputationProof, h1, h2, hlen, hscan]
    · intro _
      simp [USState.genProveReputationProof, h1, h2, hlen, hscan]
  · refine ⟨?_, ?_, ?_, ?_⟩
    · simp [USState.genProveReputationProof, h1, h2, hlen]
    · simp [USState.genProveReputationProof, h1, h2, hlen]
    · intro db'
      simp [USState.genProveReputationProof, h1, h2, hlen]
    · intro h
      exact absurd h hlen

/-- Witness for c10_no_nullifier_request: the default (omitted) nonce list
on a state whose negRep exceeds posRep still succeeds with zero requested
nullifiers. -/
theorem c10_witness :
    ∃ r, ({ stC5 with latestUserStateLeaves :=
              [⟨1, ⟨0, 4, 0, 0⟩⟩] } : USState).genProveReputationProof sC5
            (fun _ => true) 1 0 none none none none = Except.ok r ∧
         r.repNullifiersAmount = 0 :=
  (c10_no_nullifier_request { stC5 with latestUserStateLeaves := [⟨1, ⟨0, 4, 0, 0⟩⟩] }
    sC5 (fun _ => true) 1 0 none none none none rfl (by decide)
    (fun l h => by cases h)).2.2.2 (by decide)

end ClaimC10

section ClaimC7

/-- A concrete state for C7: signed up in epoch 1 with one committed
reputation leaf (attester 1, posRep 5). -/
def stC7 : USState :=
  { idNullifier := 3, commitment := 10, hasSignedUp := true
    latestTransitionedEpoch := 1, latestGSTLeafIndex := 0
    latestUserStateLeaves := [⟨1, ⟨5, 0, 0, 0⟩⟩], transitionedFromAttestations := []
    stagedGSTLeaf := 0, stagedUSTLeaves := [] }

/-- The attestation log for C7: one attestation (attester 1, posRep 3)
addressed to this user's epoch key. -/
def dbC7 : Nat → List Att := fun _ => [⟨1, 3, 0, 0, 0⟩]

/-- C7 failing-input evaluation: epochTransition(latestTransitionedEpoch)
on a signed-up user whose snapshot contains an attestation to an attester
already present in latestUserStateLeaves.  The call returns normally and
stages the new data, but — because _genNewUserStateAfterTransition copies
the leaf array with a SHALLOW slice() and _updateUserStateLeaf assigns
leaf.reputation through the shared leaf objects — the committed
latestUserStateLeaves is mutated in place from posRep 5 to posRep 8,
contradicting the claim (and the spec's 'stores this as staged (not
committed)'); the other committed scalar fields are unchanged as
claimed. -/
theorem c7_bug_eval :
    (stC7.epochTransition 1 dbC7 1).2 = none ∧
    stC7.latestUserStateLeaves = [⟨1, ⟨5, 0, 0, 0⟩⟩] ∧
    (stC7.epochTransition 1 dbC7 1).1.latestUserStateLeaves = [⟨1, ⟨8, 0, 0, 0⟩⟩] ∧
    (stC7.epochTransition 1 dbC7 1).1.latestUserStateLeaves ≠ stC7.latestUserStateLeaves ∧
    (stC7.epochTransition 1 dbC7 1).1.hasSignedUp = stC7.hasSignedUp ∧
    (stC7.epochTransition 1 dbC7 1).1.latestTransitionedEpoch =
      stC7.latestTransitionedEpoch ∧
    (stC7.epochTransition 1 dbC7 1).1.latestGSTLeafIndex = stC7.latestGSTLeafIndex ∧
    (stC7.epochTransition 1 dbC7 1).1.stagedUSTLeaves = [⟨1, ⟨8, 0, 0, 0⟩⟩] := by
  decide

end ClaimC7

/-- Assignment into the serialized leaves object
(userStateLeavesMapToString[attesterId] = reputation): replace the binding
if the key is present, append otherwise. -/
def upsertRep : List (Nat × Reputation) → Nat → Reputation → List (Nat × Reputation)
  | [], k, v => [(k, v)]
  | (k', v') :: rest, k, v =>
      if k' = k then (k, v) :: rest else (k', v') :: upsertRep rest k v

/--
The persisted shape produced by toJSON.  Reputation.toJSON /
new Reputation(JSON.parse(...)) round-trips the four numeric fields
(modelled from the spec's serialization contract, the Reputation class
not being in src/), so the serialized leaves map carries Reputation
values directly.
-/
structure USJson where
  idNullifier : Nat
  idCommitment : Nat
  hasSignedUp : Bool
  latestTransitionedEpoch : Nat
  latestGSTLeafIndex : Int
  latestUserStateLeaves : List (Nat × Reputation)
  transitionedFromAttestations : List (Nat × List Att)
deriving Repr, DecidableEq

/--
toJSON: serializes the identity values, flags, epochs, the leaves as an
object keyed by attesterId (entries written in list order; duplicate keys
would overwrite), and, for each nonce of the latest transitioned epoch,
the attestation snapshot of that epoch key when present.
-/
def USState.toJSON (st : USState) (K : Nat) : USJson :=
  { idNullifier := st.idNullifier
    idCommitment := st.commitment
    hasSignedUp := st.hasSignedUp
    latestTransitionedEpoch := st.latestTransitionedEpoch
    latestGSTLeafIndex := st.latestGSTLeafIndex
    latestUserStateLeaves :=
      st.latestUserStateLeaves.foldl (fun m l => upsertRep m l.attesterId l.reputation) []
    transitionedFromAttestations :=
      (List.range K).filterMap (fun nonce =>
        let k := genEpochKey st.idNullifier st.latestTransitionedEpoch nonce
        match st.transitionedFromAttestations.find? (fun p => p.1 == k) with
        | some p => some (k, p.2)
        | none => none) }

/--
The UserState constructor with its optional arguments: when _hasSignedUp
is provided it asserts that _latestTransitionedEpoch and
_latestGSTLeafIndex are provided too, then installs them together with the
provided leaves and attestation snapshot; otherwise both epoch fields
start at 0.  this.newUserState always starts cleared. -/
def mkUserState (idNull commitment : Nat) (signedUp? : Option Bool) (lte? : Option Nat)
    (gstIndex? : Option Int) (leaves? : Option (List Leaf))
    (tfa? : Option (List (Nat × List Att))) : Except String USState :=
  match signedUp? with
  | some b =>
      match lte? with
      | none => .error "UserState: User has signed up but missing latestTransitionedEpoch"
      | some lte =>
          match gstIndex? with
          | none => .error "UserState: User has signed up but missing latestGSTLeafIndex"
          | some g =>
              .ok { idNullifier := idNull, commitment := commitment, hasSignedUp := b
                    latestTransitionedEpoch := lte, latestGSTLeafIndex := g
                    latestUserStateLeaves := leaves?.getD []
                    transitionedFromAttestations := tfa?.getD []
                    stagedGSTLeaf := 0, stagedUSTLeaves := [] }
  | none =>
      .ok { idNullifier := idNull, commitment := commitment, hasSignedUp := false
            latestTransitionedEpoch := 0, latestGSTLeafIndex := 0
            latestUserStateLeaves := [], transitionedFromAttestations := []
            stagedGSTLeaf := 0, stagedUSTLeaves := [] }

/--
UserState.fromJSON: parses the serialized leaves object back into a leaf
list and feeds the constructor.  JS for-in iterates the attesterId keys —
canonical numeric strings below 2^32 - 1 — in ascending numeric order,
embedded as a stable ascending sort; the epoch-key-keyed attestation map
has keys beyond the array-index range, which iterate in insertion order,
so its list order is kept.  The identity (nullifier and commitment) comes
from the caller's ZkIdentity, not from the data. -/
def fromJSONUserState (idNull commitment : Nat) (data : USJson) : Except String USState :=
  let leaves := (sortByKey Prod.fst data.latestUserStateLeaves).map
    (fun p => (⟨p.1, p.2⟩ : Leaf))
  mkUserState idNull commitment (some data.hasSignedUp)
    (some data.latestTransitionedEpoch) (some data.latestGSTLeafIndex)
    (some leaves) (some data.transitionedFromAttestations)

theorem upsertRep_of_absent (acc : List (Nat × Reputation)) (k : Nat) (v : Reputation)
    (h : ∀ p ∈ acc, p.1 ≠ k) : upsertRep acc k v = acc ++ [(k, v)] := by
  induction acc with
  | nil => rfl
  | cons p rest ih =>
      obtain ⟨k', v'⟩ := p
      have hk : k' ≠ k := h (k', v') (List.mem_cons_self _ _)
      simp only [upsertRep, if_neg hk, List.cons_append, List.cons.injEq, true_and]
      exact ih (fun q hq => h q (List.mem_cons_of_mem _ hq))

theorem serLeaves_eq_of_nodup (leaves : List Leaf) :
    ∀ acc : List (Nat × Reputation),
    (∀ l ∈ leaves, ∀ p ∈ acc, p.1 ≠ l.attesterId) →
    (leaves.map Leaf.attesterId).Nodup →
    leaves.foldl (fun m l => upsertRep m l.attesterId l.reputation) acc =
      acc ++ leaves.map (fun l => (l.attesterId, l.reputation)) := by
  induction leaves with
  | nil =>
      intro acc _ _
      simp
  | cons l rest ih =>
      intro acc hdis hnd
      rw [List.map_cons, List.nodup_cons] at hnd
      have hstep : upsertRep acc l.attesterId l.reputation = acc ++ [(l.attesterId, l.reputation)] :=
        upsertRep_of_absent acc _ _ (fun p hp => hdis l (List.mem_cons_self _ _) p hp)
      have hdis' : ∀ y ∈ rest, ∀ p ∈ acc ++ [(l.attesterId, l.reputation)], p.1 ≠ y.attesterId := by
        intro y hy p hp
        rcases List.mem_append.mp hp with h | h
        · exact hdis y (List.mem_cons_of_mem _ hy) p h
        · have : p = (l.attesterId, l.reputation) := by simpa using h
          subst this
          intro hcontra
          have hc : l.attesterId = y.attesterId := hcontra
          exact hnd.1 (by rw [hc]; exact List.mem_map_of_mem Leaf.attesterId hy)
      calc (l :: rest).foldl (fun m y => upsertRep m y.attesterId y.reputation) acc
      _ = rest.foldl (fun m y => upsertRep m y.attesterId y.reputation)
            (acc ++ [(l.attesterId, l.reputation)]) := by rw [List.foldl_cons, hstep]
      _ = acc ++ [(l.attesterId, l.reputation)] ++
            rest.map (fun y => (y.attesterId, y.reputation)) := ih _ hdis' hnd.2
      _ = acc ++ (l :: rest).map (fun y => (y.attesterId, y.reputation)) := by
            simp

theorem map_mk_pairs (leaves : List Leaf) :
    (leaves.map (fun l => (l.attesterId, l.reputation))).map
      (fun p => (⟨p.1, p.2⟩ : Leaf)) = leaves := by
  induction leaves with
  | nil => rfl
  | cons l t ih => rw [List.map_cons, List.map_cons, ih]

theorem insortBy_perm {α : Type} (f : α → Nat) (x : α) (l : List α) :
    (insortBy f x l).Perm (x :: l) := by
  induction l with
  | nil => exact List.Perm.refl _
  | cons y ys ih =>
      by_cases h : f x ≤ f y
      · simp only [insortBy, if_pos h]
        exact List.Perm.refl _
      · simp only [insortBy, if_neg h]
        exact ((ih.cons y).trans (List.Perm.swap x y ys))

theorem sortByKey_perm {α : Type} (f : α → Nat) (l : List α) :
    (sortByKey f l).Perm l := by
  induction l with
  | nil => exact List.Perm.refl _
  | cons a l ih =>
      have : sortByKey f (a :: l) = insortBy f a (sortByKey f l) := rfl
      rw [this]
      exact (insortBy_perm f a (sortByKey f l)).trans (ih.cons a)

theorem find_leaf_eq_some_iff (a : Nat) (x : Leaf) (l : List Leaf)
    (hn : (l.map Leaf.attesterId).Nodup) :
    l.find? (fun y => y.attesterId == a) = some x ↔ (x ∈ l ∧ x.attesterId = a) := by
  induction l with
  | nil => simp
  | cons y ys ih =>
      rw [List.map_cons, List.nodup_cons] at hn
      by_cases hy : y.attesterId = a
      · rw [List.find?_cons_of_pos _ (by simpa using hy)]
        constructor
        · intro h
          obtain rfl : y = x := by simpa using h
          exact ⟨List.mem_cons_self _ _, hy⟩
        · rintro ⟨hmem, hxa⟩
          rcases List.mem_cons.mp hmem with rfl | hmem'
          · rfl
          · refine absurd ?_ hn.1
            have hm : x.attesterId ∈ ys.map Leaf.attesterId :=
              List.mem_map_of_mem Leaf.attesterId hmem'
            rwa [hxa, ← hy] at hm
      · rw [List.find?_cons_of_neg _ (by simpa using hy)]
        rw [ih hn.2]
        constructor
        · rintro ⟨hmem, hxa⟩
          exact ⟨List.mem_cons_of_mem _ hmem, hxa⟩
        · rintro ⟨hmem, hxa⟩
          rcases List.mem_cons.mp hmem with rfl | hmem'
          · exact absurd hxa hy
          · exact ⟨hmem', hxa⟩

theorem getRepByAttester_eq_of_perm (l l' : List Leaf) (hp : l.Perm l')
    (hn : (l.map Leaf.attesterId).Nodup) (a : Nat) :
    getRepByAttester l a = getRepByAttester l' a := by
  have hn' : (l'.map Leaf.attesterId).Nodup := ((hp.map Leaf.attesterId).nodup_iff).mp hn
  unfold getRepByAttester
  cases hfind : l.find? (fun y => y.attesterId == a) with
  | none =>
      have : l'.find? (fun y => y.attesterId == a) = none := by
        rw [List.find?_eq_none] at hfind ⊢
        intro x hx
        exact hfind x (hp.mem_iff.mpr hx)
      rw [this]
  | some x =>
      have hx := (find_leaf_eq_some_iff a x l hn).mp hfind
      have : l'.find? (fun y => y.attesterId == a) = some x :=
        (find_leaf_eq_some_iff a x l' hn').mpr ⟨hp.mem_iff.mp hx.1, hx.2⟩
      rw [this]

section ClaimC9

/-- C9: serialization round-trip.  For every UserState whose reputation
ledger is a well-formed map (distinct attesterIds, the shape every
state-constructing operation produces and the spec's data model
prescribes), UserState.fromJSON applied to toJSON's output restores
hasSignedUp, latestTransitionedEpoch, latestGSTLeafIndex, and the full
reputation ledger: every attesterId resolves to the same Reputation record
(the leaf list is restored up to the ascending key order of JS object
iteration). -/
theorem c9_roundtrip (st : USState) (K : Nat)
    (hnodup : (st.latestUserStateLeaves.map Leaf.attesterId).Nodup) :
    ∃ st', fromJSONUserState st.idNullifier st.commitment (st.toJSON K) = Except.ok st' ∧
      st'.hasSignedUp = st.hasSignedUp ∧
      st'.latestTransitionedEpoch = st.latestTransitionedEpoch ∧
      st'.latestGSTLeafIndex = st.latestGSTLeafIndex ∧
      (∀ a : Nat, getRepByAttester st'.latestUserStateLeaves a =
        getRepByAttester st.latestUserStateLeaves a) := by
  refine ⟨_, rfl, rfl, rfl, rfl, ?_⟩
  intro a
  have hser : (st.toJSON K).latestUserStateLeaves =
      st.latestUserStateLeaves.map (fun l => (l.attesterId, l.reputation)) := by
    simpa [USState.toJSON] using
      serLeaves_eq_of_nodup st.latestUserStateLeaves [] (by simp) hnodup
  have hperm : ((sortByKey Prod.fst (st.toJSON K).latestUserStateLeaves).map
      (fun p => (⟨p.1, p.2⟩ : Leaf))).Perm st.latestUserStateLeaves := by
    rw [hser]
    have h1 := (sortByKey_perm Prod.fst (st.latestUserStateLeaves.map
      (fun l => (l.attesterId, l.reputation)))).map (fun p => (⟨p.1, p.2⟩ : Leaf))
    rwa [map_mk_pairs] at h1
  show getRepByAttester ((sortByKey Prod.fst (st.toJSON K).latestUserStateLeaves).map
      (fun p => (⟨p.1, p.2⟩ : Leaf))) a = getRepByAttester st.latestUserStateLeaves a
  exact getRepByAttester_eq_of_perm _ _ hperm
    (((hperm.map Leaf.attesterId).nodup_iff).mpr hnodup) a

/-- A concrete two-leaf state (attester keys 5 and 2, deliberately out of
ascending order) with a nonempty attestation snapshot, for the c9 witness. -/
def stC9W : USState :=
  { idNullifier := 3, commitment := 10, hasSignedUp := true
    latestTransitionedEpoch := 4, latestGSTLeafIndex := 2
    latestUserStateLeaves := [⟨5, ⟨1, 2, 3, 1⟩⟩, ⟨2, ⟨7, 0, 0, 0⟩⟩]
    transitionedFromAttestations := [(genEpochKey 3 4 0, [⟨5, 1, 0, 0, 0⟩])]
    stagedGSTLeaf := 0, stagedUSTLeaves := [] }

/-- Witness for c9_roundtrip at a concrete two-leaf state (keys 5 and 2,
restored in ascending order but resolving identically). -/
theorem c9_roundtrip_witness :
    ∃ st', fromJSONUserState stC9W.idNullifier stC9W.commitment (stC9W.toJSON 2) =
        Except.ok st' ∧
      st'.hasSignedUp = stC9W.hasSignedUp ∧
      st'.latestTransitionedEpoch = stC9W.latestTransitionedEpoch ∧
      st'.latestGSTLeafIndex = stC9W.latestGSTLeafIndex ∧
      (∀ a : Nat, getRepByAttester st'.latestUserStateLeaves a =
        getRepByAttester stC9W.latestUserStateLeaves a) :=
  c9_roundtrip stC9W 2 (by decide)

end ClaimC9

/-- Context of genUserStateTransitionProofs: NUM_ATTESTATIONS_PER_PROOF
(the circuit batch size, from the circuits collaborator config), the
identity nullifier, and fromEpoch = latestTransitionedEpoch. -/
structure PACtx where
  NUM : Nat
  idNull : Nat
  epoch : Nat
deriving Repr, DecidableEq

/--
The accumulator arrays built by the nonce loop of
genUserStateTransitionProofs, translated field by field from the local
variables of the source (the Merkle path-element arrays
userStateLeafPathElements and epochKeyPathElements, consumed only by the
prover collaborator, are omitted):
tree is fromEpochUserStateTree, roots is intermediateUserStateTreeRoots,
bus is blindedUserState, bhc is blindedHashChain, chain is the per-nonce
currentHashChain, repRecords is reputationRecords, and initLeaves is
this.latestUserStateLeaves as read by getRepByAttester.
-/
structure PAState where
  tree : List (Nat × Nat)
  roots : List Nat
  bus : List Nat
  bhc : List Nat
  fromNonces : List Nat
  toNonces : List Nat
  hcStarter : List Nat
  chain : Nat
  selectors : List Nat
  attesterIds : List Nat
  oldPosReps : List Nat
  oldNegReps : List Nat
  oldGraffities : List Nat
  oldSignUps : List Nat
  posReps : List Nat
  negReps : List Nat
  graffities : List Nat
  overwriteGraffities : List Nat
  signUps : List Nat
  finalHashChain : List Nat
  repRecords : List (Nat × Reputation)
  initLeaves : List Leaf
deriving Repr, DecidableEq

/-- The batch-boundary block of the attestation loop (lines guarded by
`i && i % NUM_ATTESTATIONS_PER_PROOF == 0 && i != NUM_ATTESTATIONS_PER_PROOF - 1`):
pushes the nonce to toNonces and fromNonces, the running hash chain to
hashChainStarter, and a blinded-user-state checkpoint of the CURRENT
intermediate tree root (hash5 zero-pads the 4-element call). -/
def boundaryPush (c : PACtx) (n : Nat) (st : PAState) : PAState :=
  { st with
    toNonces := st.toNonces ++ [n]
    fromNonces := st.fromNonces ++ [n]
    hcStarter := st.hcStarter ++ [st.chain]
    bus := st.bus ++ [hash5 c.idNull (ustRoot st.tree) c.epoch n 0] }

/-- Processing of one real attestation: reads (or initialises from
getRepByAttester) the running reputation record of the attester, pushes
the pre-update record to the old* arrays, updates the record and the
sparse tree, appends the new intermediate root, pushes selector 1 and the
attestation fields (overwriteGraffiti derived as graffiti != '0'), and
extends the running hash chain. -/
def attApply (c : PACtx) (a : Att) (st : PAState) : PAState :=
  let aid := a.attesterId
  let rec0 := match st.repRecords.find? (fun p => p.1 == aid) with
    | some p => p.2
    | none => getRepByAttester st.initLeaves aid
  let rec1 := rec0.update a.posRep a.negRep a.graffiti a.signUp
  let tree1 := ustUpdate st.tree aid rec1.hash
  { st with
    repRecords := upsertRep st.repRecords aid rec1
    oldPosReps := st.oldPosReps ++ [rec0.posRep]
    oldNegReps := st.oldNegReps ++ [rec0.negRep]
    oldGraffities := st.oldGraffities ++ [rec0.graffiti]
    oldSignUps := st.oldSignUps ++ [rec0.signUp]
    tree := tree1
    roots := st.roots ++ [ustRoot tree1]
    selectors := st.selectors ++ [1]
    attesterIds := st.attesterIds ++ [aid]
    posReps := st.posReps ++ [a.posRep]
    negReps := st.negReps ++ [a.negRep]
    graffities := st.graffities ++ [a.graffiti]
    overwriteGraffities := st.overwriteGraffities ++ [if a.graffiti ≠ 0 then 1 else 0]
    signUps := st.signUps ++ [a.signUp]
    chain := hashLeftRight a.hash st.chain }

/-- One iteration of the attestation loop at index i: the boundary block
when i is a positive multiple of NUM (the source's extra
i != NUM - 1 conjunct is kept verbatim), then the attestation itself. -/
def attStep (c : PACtx) (n i : Nat) (a : Att) (st : PAState) : PAState :=
  attApply c a
    (if i ≠ 0 ∧ i % c.NUM = 0 ∧ i ≠ c.NUM - 1 then boundaryPush c n st else st)

/-- The attestation loop over one epoch key's attestation list, i being
the running index. -/
def attLoop (c : PACtx) (n : Nat) : Nat → List Att → PAState → PAState
  | _, [], st => st
  | i, a :: rest, st => attLoop c n (i + 1) rest (attStep c n i a st)

/-- One padding iteration ("Fill in blank data for non-exist
attestation"): all-zero old records and attestation fields, selector 0,
and the UNCHANGED current tree root appended to the intermediate roots;
the tree and the running hash chain are not touched. -/
def padEntry (st : PAState) : PAState :=
  { st with
    oldPosReps := st.oldPosReps ++ [0]
    oldNegReps := st.oldNegReps ++ [0]
    oldGraffities := st.oldGraffities ++ [0]
    oldSignUps := st.oldSignUps ++ [0]
    roots := st.roots ++ [ustRoot st.tree]
    selectors := st.selectors ++ [0]
    attesterIds := st.attesterIds ++ [0]
    posReps := st.posReps ++ [0]
    negReps := st.negReps ++ [0]
    graffities := st.graffities ++ [0]
    overwriteGraffities := st.overwriteGraffities ++ [0]
    signUps := st.signUps ++ [0] }

/-- The padding loop, k = filledAttestationNum - attestations.length
iterations. -/
def padLoop : Nat → PAState → PAState
  | 0, st => st
  | k + 1, st => padLoop k (padEntry st)

/-- filledAttestationNum: the attestation count rounded up to a positive
multiple of NUM_ATTESTATIONS_PER_PROOF (one full batch when the list is
empty). -/
def filledNum (NUM len : Nat) : Nat :=
  if len = 0 then NUM else ((len + NUM - 1) / NUM) * NUM

/-- The head of one nonce iteration: currentHashChain reset to zero, the
nonce pushed to toNonces and the zero starter to hashChainStarter. -/
def introStep (n : Nat) (st : PAState) : PAState :=
  { st with
    chain := 0
    toNonces := st.toNonces ++ [n]
    hcStarter := st.hcStarter ++ [0] }

/-- The tail of one nonce iteration: the final hash chain of the nonce,
the end-of-nonce blinded user state (of the current tree root) and
blinded hash chain, and — except after the last nonce — the next
fromNonces entry. -/
def tailStep (c : PACtx) (K n : Nat) (st : PAState) : PAState :=
  { st with
    finalHashChain := st.finalHashChain ++ [st.chain]
    bus := st.bus ++ [hash5 c.idNull (ustRoot st.tree) c.epoch n 0]
    bhc := st.bhc ++ [hash5 c.idNull st.chain c.epoch n 0]
    fromNonces := if n ≠ K - 1 then st.fromNonces ++ [n] else st.fromNonces }

/-- One full iteration of the nonce loop: read the epoch key's
attestations from the synchronizer database, run the attestation loop,
pad to filledAttestationNum, then the nonce tail. -/
def nonceStep (c : PACtx) (K : Nat) (db : Nat → List Att) (st : PAState) (n : Nat) :
    PAState :=
  let as := db (genEpochKey c.idNull c.epoch n)
  tailStep c K n
    (padLoop (filledNum c.NUM as.length - as.length)
      (attLoop c n 0 as (introStep n st)))

/-- The state entering the nonce loop: the pre-transition user state tree
and its root as the only intermediate root, the start-transition blinded
user state hash5(idNullifier, root, fromEpoch, nonce 0, 0) (fromNonce =
0), and fromNonces seeded with [0]. -/
def initPA (c : PACtx) (leaves : List Leaf) : PAState :=
  { tree := treeFromLeaves leaves
    roots := [ustRoot (treeFromLeaves leaves)]
    bus := [hash5 c.idNull (ustRoot (treeFromLeaves leaves)) c.epoch 0 0]
    bhc := []
    fromNonces := [0]
    toNonces := []
    hcStarter := []
    chain := 0
    selectors := [], attesterIds := []
    oldPosReps := [], oldNegReps := [], oldGraffities := [], oldSignUps := []
    posReps := [], negReps := [], graffities := [], overwriteGraffities := []
    signUps := []
    finalHashChain := []
    repRecords := []
    initLeaves := leaves }

/-- The nonce loop of genUserStateTransitionProofs over nonces
[0, numEpochKeyNoncePerEpoch). -/
def assembleUST (c : PACtx) (K : Nat) (db : Nat → List Att) (leaves : List Leaf) :
    PAState :=
  (List.range K).foldl (nonceStep c K db) (initPA c leaves)

/-- One process-attestations batch as sliced by the final loop of
genUserStateTransitionProofs (batch i takes rows
[NUM * i, NUM * (i+1)) of the flat arrays and roots
[NUM * i, NUM * (i+1)]). -/
structure PABatch where
  fromNonce : Nat
  toNonce : Nat
  rootSlice : List Nat
  inputBlindedUserState : Nat
  hashChainStarter : Nat
  selectors : List Nat
deriving Repr, DecidableEq

/-- The processAttestationCircuitInputs list: one batch per fromNonces
entry, sliced at NUM_ATTESTATIONS_PER_PROOF boundaries; batch i declares
input_blinded_user_state = blindedUserState[i]. -/
def mkBatches (NUM : Nat) (st : PAState) : List PABatch :=
  (List.range st.fromNonces.length).map (fun i =>
    { fromNonce := st.fromNonces.getD i 0
      toNonce := st.toNonces.getD i 0
      rootSlice := (st.roots.drop (NUM * i)).take (NUM + 1)
      inputBlindedUserState := st.bus.getD i 0
      hashChainStarter := st.hcStarter.getD i 0
      selectors := (st.selectors.drop (NUM * i)).take NUM })

/-- Modelled from the spec: the blinded user state DECLARED AS OUTPUT by a
process-attestations batch ("crossing a batch boundary emits a new
blinded-user-state checkpoint binding the same epoch/nonce pair"; the
checkpoint is the keyed hash of the identity secret, the batch's last
intermediate user-state-tree root, the epoch, and the batch's to_nonce —
the circuit itself is outside src/). -/
def batchOutputBUS (c : PACtx) (b : PABatch) : Nat :=
  hash5 c.idNull (b.rootSlice.getD c.NUM 0) c.epoch b.toNonce 0

/-- The blinded user state output by the start-transition phase
(_genStartTransitionCircuitInputs with fromNonce = 0). -/
def startBlindedUserState (c : PACtx) (leaves : List Leaf) : Nat :=
  hash5 c.idNull (ustRoot (treeFromLeaves leaves)) c.epoch 0 0

theorem getD_concat_last (l : List Nat) (x d : Nat) : (l ++ [x]).getD l.length d = x := by
  rw [List.getD_append_right l [x] d l.length (Nat.le_refl _)]
  simp

/-- The last intermediate root on record equals the current tree root. -/
def rootsAligned (st : PAState) : Prop :=
  st.roots ≠ [] ∧ st.roots.getD (st.roots.length - 1) 0 = ustRoot st.tree

theorem rootsAligned_attApply (c : PACtx) (a : Att) (st : PAState) :
    rootsAligned (attApply c a st) := by
  unfold rootsAligned attApply
  refine ⟨by simp, ?_⟩
  simp only [List.length_append, List.length_singleton, Nat.add_sub_cancel]
  exact getD_concat_last _ _ _

theorem rootsAligned_attStep (c : PACtx) (n i : Nat) (a : Att) (st : PAState) :
    rootsAligned (attStep c n i a st) :=
  rootsAligned_attApply c a _

theorem rootsAligned_attLoop (c : PACtx) (n : Nat) (as : List Att) :
    ∀ (i : Nat) (st : PAState), rootsAligned st → rootsAligned (attLoop c n i as st) := by
  induction as with
  | nil =>
      intro i st h
      exact h
  | cons a rest ih =>
      intro i st _
      exact ih (i + 1) (attStep c n i a st) (rootsAligned_attStep c n i a st)

theorem rootsAligned_introStep (n : Nat) (st : PAState) (h : rootsAligned st) :
    rootsAligned (introStep n st) := h

/-- padLoop appends k neutral rows: selector 0, all-zero attestation and
old-record fields, and k copies of the CURRENT tree root to the
intermediate roots; the tree, the running hash chain, and every
blinded-state / nonce / hash-chain-starter array are untouched. -/
theorem padLoop_spec (k : Nat) : ∀ st : PAState,
    padLoop k st =
      { st with
        oldPosReps := st.oldPosReps ++ List.replicate k 0
        oldNegReps := st.oldNegReps ++ List.replicate k 0
        oldGraffities := st.oldGraffities ++ List.replicate k 0
        oldSignUps := st.oldSignUps ++ List.replicate k 0
        roots := st.roots ++ List.replicate k (ustRoot st.tree)
        selectors := st.selectors ++ List.replicate k 0
        attesterIds := st.attesterIds ++ List.replicate k 0
        posReps := st.posReps ++ List.replicate k 0
        negReps := st.negReps ++ List.replicate k 0
        graffities := st.graffities ++ List.replicate k 0
        overwriteGraffities := st.overwriteGraffities ++ List.replicate k 0
        signUps := st.signUps ++ List.replicate k 0 } := by
  induction k with
  | zero =>
      intro st
      simp [padLoop]
  | succ k ih =>
      intro st
      have : padLoop (k + 1) st = padLoop k (padEntry st) := rfl
      rw [this, ih (padEntry st)]
      simp [padEntry, List.replicate_succ, List.append_assoc]

theorem filledNum_dvd (NUM len : Nat) (hNUM : 0 < NUM) : NUM ∣ filledNum NUM len := by
  unfold filledNum
  by_cases h : len = 0
  · simp [h]
  · simp only [h, if_false]
    exact Dvd.intro_left _ rfl

theorem le_filledNum (NUM len : Nat) (hNUM : 0 < NUM) : len ≤ filledNum NUM len := by
  unfold filledNum
  by_cases h : len = 0
  · simp [h]
  · simp only [h, if_false]
    have hlen : 1 ≤ len := Nat.one_le_iff_ne_zero.mpr h
    have hid : (len + NUM - 1) / NUM = (len - 1) / NUM + 1 := by
      have e : len + NUM - 1 = (len - 1) + NUM := by omega
      rw [e, Nat.add_div_right _ hNUM]
    rw [hid, Nat.succ_mul]
    have hdm := Nat.div_add_mod (len - 1) NUM
    have hmlt : (len - 1) % NUM < NUM := Nat.mod_lt _ hNUM
    rw [Nat.mul_comm]
    omega

theorem pad_pos (NUM len : Nat) (hNUM : 0 < NUM)
    (h : len % NUM ≠ 0 ∨ len = 0) : 0 < filledNum NUM len - len := by
  rcases h with h | h
  · have hle := le_filledNum NUM len hNUM
    have hne : filledNum NUM len ≠ len := by
      intro he
      have hdvd := filledNum_dvd NUM len hNUM
      rw [he] at hdvd
      exact h ((Nat.dvd_iff_mod_eq_zero).mp hdvd)
    omega
  · subst h
    simp [filledNum, hNUM]

section ClaimC8

/-- C8: in the nonce loop of genUserStateTransitionProofs, every epoch-key
nonce's rows are padded from attestations.length up to
filledAttestationNum — a positive multiple of NUM_ATTESTATIONS_PER_PROOF
whenever the list is empty or not itself a multiple — with neutral
entries: selector 0 and every attestation field zero; and appending a
padding entry changes neither the intermediate user-state-tree root (each
appended root equals the pre-padding last root, the tree not being
updated) nor the running hash chain (the chain value the nonce tail
records is exactly the one reached after the real attestations). -/
theorem c8_padding_neutral (c : PACtx) (K : Nat) (db : Nat → List Att) (n : Nat)
    (st : PAState) (hNUM : 0 < c.NUM) (halign : rootsAligned st) :
    nonceStep c K db st n =
      tailStep c K n
        (padLoop (filledNum c.NUM (db (genEpochKey c.idNull c.epoch n)).length -
            (db (genEpochKey c.idNull c.epoch n)).length)
          (attLoop c n 0 (db (genEpochKey c.idNull c.epoch n)) (introStep n st))) ∧
    c.NUM ∣ filledNum c.NUM (db (genEpochKey c.idNull c.epoch n)).length ∧
    (db (genEpochKey c.idNull c.epoch n)).length ≤
      filledNum c.NUM (db (genEpochKey c.idNull c.epoch n)).length ∧
    ((db (genEpochKey c.idNull c.epoch n)).length % c.NUM ≠ 0 ∨
        (db (genEpochKey c.idNull c.epoch n)).length = 0 →
      0 < filledNum c.NUM (db (genEpochKey c.idNull c.epoch n)).length -
            (db (genEpochKey c.idNull c.epoch n)).length) ∧
    (∀ st2 : PAState, st2 = attLoop c n 0 (db (genEpochKey c.idNull c.epoch n))
        (introStep n st) →
      ∀ pad : Nat,
      padLoop pad st2 =
        { st2 with
          oldPosReps := st2.oldPosReps ++ List.replicate pad 0
          oldNegReps := st2.oldNegReps ++ List.replicate pad 0
          oldGraffities := st2.oldGraffities ++ List.replicate pad 0
          oldSignUps := st2.oldSignUps ++ List.replicate pad 0
          roots := st2.roots ++
            List.replicate pad (st2.roots.getD (st2.roots.length - 1) 0)
          selectors := st2.selectors ++ List.replicate pad 0
          attesterIds := st2.attesterIds ++ List.replicate pad 0
          posReps := st2.posReps ++ List.replicate pad 0
          negReps := st2.negReps ++ List.replicate pad 0
          graffities := st2.graffities ++ List.replicate pad 0
          overwriteGraffities := st2.overwriteGraffities ++ List.replicate pad 0
          signUps := st2.signUps ++ List.replicate pad 0 } ∧
      (padLoop pad st2).chain = st2.chain ∧
      (padLoop pad st2).tree = st2.tree ∧
      (padLoop pad st2).bus = st2.bus ∧
      (padLoop pad st2).toNonces = st2.toNonces ∧
      (padLoop pad st2).fromNonces = st2.fromNonces ∧
      (padLoop pad st2).hcStarter = st2.hcStarter ∧
      (padLoop pad st2).finalHashChain = st2.finalHashChain) := by
  refine ⟨rfl, filledNum_dvd _ _ hNUM, le_filledNum _ _ hNUM, pad_pos _ _ hNUM, ?_⟩
  intro st2 hst2 pad
  have halign2 : rootsAligned st2 := by
    rw [hst2]
    exact rootsAligned_attLoop c n _ 0 _ (rootsAligned_introStep n st halign)
  have hspec := padLoop_spec pad st2
  refine ⟨?_, ?_, ?_, ?_, ?_, ?_, ?_, ?_⟩
  · rw [hspec, halign2.2]
  all_goals rw [hspec]

/-- Witness for c8_padding_neutral: one nonce with a single attestation
and batch size 2 pads exactly one neutral row. -/
theorem c8_padding_neutral_witness :
    nonceStep ⟨2, 3, 1⟩ 1 dbC7 (initPA ⟨2, 3, 1⟩ stC7.latestUserStateLeaves) 0 =
      tailStep ⟨2, 3, 1⟩ 1 0
        (padLoop (filledNum 2 (dbC7 (genEpochKey 3 1 0)).length -
            (dbC7 (genEpochKey 3 1 0)).length)
          (attLoop ⟨2, 3, 1⟩ 0 0 (dbC7 (genEpochKey 3 1 0))
            (introStep 0 (initPA ⟨2, 3, 1⟩ stC7.latestUserStateLeaves)))) ∧
    (2 : Nat) ∣ filledNum 2 (dbC7 (genEpochKey 3 1 0)).length ∧
    0 < filledNum 2 (dbC7 (genEpochKey 3 1 0)).length -
          (dbC7 (genEpochKey 3 1 0)).length := by
  have h := c8_padding_neutral ⟨2, 3, 1⟩ 1 dbC7 0
    (initPA ⟨2, 3, 1⟩ stC7.latestUserStateLeaves) (by decide)
    ⟨by simp [initPA], by simp [initPA]⟩
  exact ⟨h.1, h.2.1, h.2.2.2.1 (Or.inl (by decide))⟩

end ClaimC8

/-- Number of batch boundaries passed inside one nonce after j processed
attestations: boundaries occur before processing index i for i a positive
multiple of NUM, so their count is floor((j-1)/NUM) for j >= 1. -/
def bnd (NUM j : Nat) : Nat := if j = 0 then 0 else (j - 1) / NUM

theorem bnd_zero (NUM : Nat) : bnd NUM 0 = 0 := rfl

theorem bnd_succ (NUM j : Nat) : bnd NUM (j + 1) = j / NUM := by
  simp [bnd]

theorem div_pred_of_dvd (NUM j : Nat) (hNUM : 0 < NUM) (hj : 0 < j) (hd : NUM ∣ j) :
    j / NUM = (j - 1) / NUM + 1 := by
  obtain ⟨m, rfl⟩ := hd
  have hm : m ≠ 0 := by
    rintro rfl
    simp at hj
  obtain ⟨m', rfl⟩ : ∃ m', m = m' + 1 := ⟨m - 1, by omega⟩
  have h0 : NUM * (m' + 1) = NUM * m' + NUM := by ring
  have h1 : NUM * (m' + 1) - 1 = NUM * m' + (NUM - 1) := by omega
  have h2 : NUM * (m' + 1) / NUM = m' + 1 := Nat.mul_div_cancel_left _ hNUM
  have h3 : (NUM * m' + (NUM - 1)) / NUM = m' + (NUM - 1) / NUM := Nat.mul_add_div hNUM _ _
  have h4 : (NUM - 1) / NUM = 0 := Nat.div_eq_of_lt (by omega)
  rw [h2, h1, h3, h4]

theorem div_pred_of_not_dvd (NUM j : Nat) (hNUM : 0 < NUM) (hd : ¬ NUM ∣ j) :
    j / NUM = (j - 1) / NUM := by
  have hr : j % NUM ≠ 0 := fun h => hd (Nat.dvd_iff_mod_eq_zero.mpr h)
  have hdm := Nat.div_add_mod j NUM
  have hlt : j % NUM < NUM := Nat.mod_lt _ hNUM
  have h1 : j - 1 = NUM * (j / NUM) + (j % NUM - 1) := by omega
  have h2 : (NUM * (j / NUM) + (j % NUM - 1)) / NUM = j / NUM + (j % NUM - 1) / NUM :=
    Nat.mul_add_div hNUM _ _
  have h3 : (j % NUM - 1) / NUM = 0 := Nat.div_eq_of_lt (by omega)
  rw [h1, h2, h3]
  omega

theorem mul_bnd_le (NUM j : Nat) : NUM * bnd NUM j ≤ j := by
  unfold bnd
  by_cases h : j = 0
  · simp [h]
  · simp only [h, if_false]
    calc NUM * ((j - 1) / NUM) = (j - 1) / NUM * NUM := Nat.mul_comm _ _
    _ ≤ j - 1 := Nat.div_mul_le_self _ _
    _ ≤ j := Nat.sub_le _ _

theorem mul_one_add_bnd (NUM len : Nat) (hNUM : 0 < NUM) :
    NUM * (1 + bnd NUM len) = filledNum NUM len := by
  unfold bnd filledNum
  by_cases h : len = 0
  · simp [h]
  · simp only [h, if_false]
    have hid : (len + NUM - 1) / NUM = (len - 1) / NUM + 1 := by
      have e : len + NUM - 1 = (len - 1) + NUM := by omega
      rw [e, Nat.add_div_right _ hNUM]
    rw [hid]
    ring

/-- The chaining property of the accumulated arrays: every
blinded-user-state entry after the first is the checkpoint hash of the
intermediate root at the corresponding batch boundary and of the to-nonce
of the preceding batch. -/
def chainGood (c : PACtx) (roots bus toN : List Nat) : Prop :=
  ∀ i : Nat, i + 1 < bus.length →
    bus.getD (i + 1) 0 =
      hash5 c.idNull (roots.getD (c.NUM * (i + 1)) 0) c.epoch (toN.getD i 0) 0

theorem chainGood_nil_bus (c : PACtx) (roots : List Nat) (bus toN : List Nat)
    (h : bus.length ≤ 1) : chainGood c roots bus toN := by
  intro i hi
  omega

theorem chainGood_roots_append (c : PACtx) (roots bus toN Δ : List Nat)
    (h : chainGood c roots bus toN)
    (hbound : c.NUM * (bus.length - 1) < roots.length) :
    chainGood c (roots ++ Δ) bus toN := by
  intro i hi
  have hle : c.NUM * (i + 1) ≤ c.NUM * (bus.length - 1) :=
    Nat.mul_le_mul_left _ (by omega)
  rw [List.getD_append _ _ _ _ (lt_of_le_of_lt hle hbound)]
  exact h i hi

theorem chainGood_toN_append (c : PACtx) (roots bus toN Δ : List Nat)
    (h : chainGood c roots bus toN)
    (hlen : bus.length ≤ toN.length + 1) :
    chainGood c roots bus (toN ++ Δ) := by
  intro i hi
  rw [List.getD_append _ _ _ _ (by omega)]
  exact h i hi

theorem chainGood_bus_push (c : PACtx) (roots bus toN : List Nat) (v : Nat)
    (h : chainGood c roots bus toN)
    (hv : v = hash5 c.idNull (roots.getD (c.NUM * bus.length) 0) c.epoch
      (toN.getD (bus.length - 1) 0) 0) :
    chainGood c roots (bus ++ [v]) toN := by
  intro i hi
  rw [List.length_append, List.length_singleton] at hi
  by_cases hlt : i + 1 < bus.length
  · rw [List.getD_append _ _ _ _ hlt]
    exact h i hlt
  · have he : i + 1 = bus.length := by omega
    have hi' : i = bus.length - 1 := by omega
    rw [he, getD_concat_last, hv, hi']

/-- The invariant of the accumulated arrays between nonce iterations:
blindedUserState one longer than toNonces, intermediate roots exactly
NUM per batch plus the initial root, the last root aligned with the
current tree, the chaining property, and blindedUserState[0] being the
start-phase output. -/
structure OuterInv (c : PACtx) (startVal : Nat) (st : PAState) : Prop where
  blen : st.bus.length = st.toNonces.length + 1
  rlen : st.roots.length = c.NUM * st.toNonces.length + 1
  align : rootsAligned st
  good : chainGood c st.roots st.bus st.toNonces
  head : st.bus.getD 0 0 = startVal

/-- The invariant inside the attestation loop of nonce n, after j
processed attestations, B being the number of completed batches when the
nonce was entered. -/
structure InnerInv (c : PACtx) (startVal : Nat) (n B j : Nat) (st : PAState) : Prop where
  tlen : st.toNonces.length = st.bus.length
  blen : st.bus.length = B + 1 + bnd c.NUM j
  rlen : st.roots.length = c.NUM * B + 1 + j
  lastTo : st.toNonces.getD (st.toNonces.length - 1) 0 = n
  align : rootsAligned st
  good : chainGood c st.roots st.bus st.toNonces
  head : st.bus.getD 0 0 = startVal

theorem innerInv_intro (c : PACtx) (v n : Nat) (st : PAState)
    (h : OuterInv c v st) : InnerInv c v n st.toNonces.length 0 (introStep n st) := by
  obtain ⟨hb, hr, hal, hg, hh⟩ := h
  refine ⟨?_, ?_, ?_, ?_, hal, ?_, hh⟩
  · show (st.toNonces ++ [n]).length = st.bus.length
    simp [hb]
  · show st.bus.length = st.toNonces.length + 1 + bnd c.NUM 0
    simp [bnd_zero, hb]
  · show st.roots.length = c.NUM * st.toNonces.length + 1 + 0
    simp [hr]
  · show (st.toNonces ++ [n]).getD ((st.toNonces ++ [n]).length - 1) 0 = n
    simp only [List.length_append, List.length_singleton, Nat.add_sub_cancel]
    exact getD_concat_last _ _ _
  · show chainGood c st.roots st.bus (st.toNonces ++ [n])
    exact chainGood_toN_append c _ _ _ _ hg (by omega)

theorem innerInv_attApply (c : PACtx) (v n B j : Nat) (a : Att) (m : PAState)
    (ht : m.toNonces.length = m.bus.length)
    (hb : m.bus.length = B + 1 + bnd c.NUM (j + 1))
    (hr : m.roots.length = c.NUM * B + 1 + j)
    (hlast : m.toNonces.getD (m.toNonces.length - 1) 0 = n)
    (hg : chainGood c m.roots m.bus m.toNonces)
    (hh : m.bus.getD 0 0 = v)
    (hbound : c.NUM * (m.bus.length - 1) < m.roots.length) :
    InnerInv c v n B (j + 1) (attApply c a m) := by
  obtain ⟨x, e1⟩ : ∃ x, (attApply c a m).roots = m.roots ++ [x] := ⟨_, rfl⟩
  have e2 : (attApply c a m).bus = m.bus := rfl
  have e3 : (attApply c a m).toNonces = m.toNonces := rfl
  refine ⟨ht, hb, ?_, hlast, rootsAligned_attApply c a m, ?_, hh⟩
  · rw [e1]
    simp only [List.length_append, List.length_singleton, hr]
    omega
  · show chainGood c (attApply c a m).roots (attApply c a m).bus (attApply c a m).toNonces
    rw [e1, e2, e3]
    exact chainGood_roots_append c _ _ _ _ hg hbound

theorem innerInv_attStep (c : PACtx) (v n B j : Nat) (a : Att) (st : PAState)
    (hNUM : 0 < c.NUM) (h : InnerInv c v n B j st) :
    InnerInv c v n B (j + 1) (attStep c n j a st) := by
  obtain ⟨ht, hb, hr, hlast, hal, hg, hh⟩ := h
  by_cases hcond : j ≠ 0 ∧ j % c.NUM = 0 ∧ j ≠ c.NUM - 1
  · rw [attStep, if_pos hcond]
    obtain ⟨hj0, hjm, -⟩ := hcond
    have hdvd : c.NUM ∣ j := Nat.dvd_iff_mod_eq_zero.mpr hjm
    have hjpos : 0 < j := Nat.pos_of_ne_zero hj0
    have hbndj : bnd c.NUM j = (j - 1) / c.NUM := by simp [bnd, hj0]
    have hdiv : j / c.NUM = (j - 1) / c.NUM + 1 := div_pred_of_dvd _ _ hNUM hjpos hdvd
    have hmulj : c.NUM * (j / c.NUM) = j := Nat.mul_div_cancel' hdvd
    have hmul : c.NUM * st.bus.length = c.NUM * B + j := by
      have e : c.NUM * (B + 1 + bnd c.NUM j) = c.NUM * B + c.NUM * (1 + bnd c.NUM j) := by
        ring
      rw [hb, e, hbndj]
      have e2 : c.NUM * (1 + (j - 1) / c.NUM) = c.NUM * (j / c.NUM) := by
        rw [hdiv]
        ring
      rw [e2, hmulj]
    have hbuspos : 1 ≤ st.bus.length := by omega
    have hw : hash5 c.idNull (ustRoot st.tree) c.epoch n 0 =
        hash5 c.idNull (st.roots.getD (c.NUM * st.bus.length) 0) c.epoch
          ((st.toNonces ++ [n]).getD (st.bus.length - 1) 0) 0 := by
      have hidx : c.NUM * st.bus.length = st.roots.length - 1 := by omega
      have h1 : st.roots.getD (c.NUM * st.bus.length) 0 = ustRoot st.tree := by
        rw [hidx, hal.2]
      have hlt2 : st.bus.length - 1 < st.toNonces.length := by omega
      have h2 : (st.toNonces ++ [n]).getD (st.bus.length - 1) 0 = n := by
        rw [List.getD_append _ _ _ _ hlt2]
        have e : st.bus.length - 1 = st.toNonces.length - 1 := by omega
        rw [e, hlast]
      rw [h1, h2]
    have hg1 : chainGood c st.roots st.bus (st.toNonces ++ [n]) :=
      chainGood_toN_append c _ _ _ _ hg (by omega)
    have hg2 : chainGood c st.roots
        (st.bus ++ [hash5 c.idNull (ustRoot st.tree) c.epoch n 0]) (st.toNonces ++ [n]) :=
      chainGood_bus_push c _ _ _ _ hg1 hw
    apply innerInv_attApply c v n B j a (boundaryPush c n st)
    · show (st.toNonces ++ [n]).length = (st.bus ++ [hash5 c.idNull (ustRoot st.tree) c.epoch n 0]).length
      simp [ht]
    · show (st.bus ++ [hash5 c.idNull (ustRoot st.tree) c.epoch n 0]).length =
        B + 1 + bnd c.NUM (j + 1)
      rw [List.length_append, List.length_singleton, hb, bnd_succ, hdiv, hbndj]
      omega
    · exact hr
    · show (st.toNonces ++ [n]).getD ((st.toNonces ++ [n]).length - 1) 0 = n
      simp only [List.length_append, List.length_singleton, Nat.add_sub_cancel]
      exact getD_concat_last _ _ _
    · exact hg2
    · show (st.bus ++ [hash5 c.idNull (ustRoot st.tree) c.epoch n 0]).getD 0 0 = v
      rw [List.getD_append _ _ _ _ (by omega)]
      exact hh
    · show c.NUM * ((st.bus ++ [hash5 c.idNull (ustRoot st.tree) c.epoch n 0]).length - 1) <
        st.roots.length
      simp only [List.length_append, List.length_singleton, Nat.add_sub_cancel]
      omega
  · rw [attStep, if_neg hcond]
    have hcase : j = 0 ∨ ¬ c.NUM ∣ j := by
      by_cases hj0 : j = 0
      · exact Or.inl hj0
      · right
        intro hdvd
        apply hcond
        refine ⟨hj0, Nat.dvd_iff_mod_eq_zero.mp hdvd, ?_⟩
        intro he
        have hle := Nat.le_of_dvd (Nat.pos_of_ne_zero hj0) hdvd
        omega
    have hbnd_eq : bnd c.NUM (j + 1) = bnd c.NUM j := by
      rcases hcase with h0 | hnd
      · subst h0
        rw [bnd_succ, bnd_zero, Nat.zero_div]
      · have hj0 : j ≠ 0 := by
          rintro rfl
          exact hnd (dvd_zero _)
        rw [bnd_succ, div_pred_of_not_dvd _ _ hNUM hnd]
        simp [bnd, hj0]
    apply innerInv_attApply c v n B j a st ht (by rw [hbnd_eq]; exact hb) hr hlast hg hh
    have h1 := mul_bnd_le c.NUM j
    have e : st.bus.length - 1 = B + bnd c.NUM j := by omega
    have e2 : c.NUM * (B + bnd c.NUM j) = c.NUM * B + c.NUM * bnd c.NUM j := by ring
    rw [e, e2]
    omega

theorem innerInv_attLoop (c : PACtx) (v n B : Nat) (hNUM : 0 < c.NUM) :
    ∀ (as : List Att) (j : Nat) (st : PAState), InnerInv c v n B j st →
      InnerInv c v n B (j + as.length) (attLoop c n j as st) := by
  intro as
  induction as with
  | nil =>
      intro j st h
      simpa [attLoop] using h
  | cons a rest ih =>
      intro j st h
      have h2 := ih (j + 1) _ (innerInv_attStep c v n B j a st hNUM h)
      have e : j + (a :: rest).length = (j + 1) + rest.length := by
        simp [List.length_cons]
        omega
      rw [e]
      exact h2

theorem rootsAligned_padEntry (st : PAState) : rootsAligned (padEntry st) := by
  unfold rootsAligned padEntry
  refine ⟨by simp, ?_⟩
  simp only [List.length_append, List.length_singleton, Nat.add_sub_cancel]
  exact getD_concat_last _ _ _

theorem rootsAligned_padLoop (k : Nat) : ∀ st : PAState,
    rootsAligned st → rootsAligned (padLoop k st) := by
  induction k with
  | zero =>
      intro st h
      exact h
  | succ k ih =>
      intro st _
      exact ih (padEntry st) (rootsAligned_padEntry st)

theorem outerInv_nonceStep (c : PACtx) (v K : Nat) (db : Nat → List Att)
    (st : PAState) (n : Nat) (hNUM : 0 < c.NUM) (h : OuterInv c v st) :
    OuterInv c v (nonceStep c K db st n) := by
  have hinner := innerInv_attLoop c v n st.toNonces.length hNUM
    (db (genEpochKey c.idNull c.epoch n)) 0 (introStep n st)
    (innerInv_intro c v n st h)
  set B := st.toNonces.length with hB
  set as := db (genEpochKey c.idNull c.epoch n) with has
  set len := as.length with hlen
  set st2 := attLoop c n 0 as (introStep n st) with hst2
  obtain ⟨ht2, hb2, hr2, hlast2, hal2, hg2, hh2⟩ := hinner
  rw [Nat.zero_add] at hb2 hr2
  set pad := filledNum c.NUM len - len with hpad
  have hspec := padLoop_spec pad st2
  set st3 := padLoop pad st2 with hst3
  have e3bus : st3.bus = st2.bus := by rw [hspec]
  have e3toN : st3.toNonces = st2.toNonces := by rw [hspec]
  have e3roots : st3.roots = st2.roots ++ List.replicate pad (ustRoot st2.tree) := by
    rw [hspec]
  have hal3 : rootsAligned st3 := rootsAligned_padLoop pad st2 hal2
  have hfillge := le_filledNum c.NUM len hNUM
  have hr3 : st3.roots.length = c.NUM * B + 1 + filledNum c.NUM len := by
    rw [e3roots, List.length_append, List.length_replicate, hr2]
    omega
  have hfill : c.NUM * (1 + bnd c.NUM len) = filledNum c.NUM len :=
    mul_one_add_bnd _ _ hNUM
  have hbndle := mul_bnd_le c.NUM len
  have hg3 : chainGood c st3.roots st3.bus st3.toNonces := by
    rw [e3roots, e3bus, e3toN]
    apply chainGood_roots_append c _ _ _ _ hg2
    have e : st2.bus.length - 1 = B + bnd c.NUM len := by omega
    have e2 : c.NUM * (B + bnd c.NUM len) = c.NUM * B + c.NUM * bnd c.NUM len := by ring
    rw [e, e2]
    omega
  have hmulT : c.NUM * st3.bus.length = c.NUM * B + filledNum c.NUM len := by
    rw [e3bus, hb2,
      show c.NUM * (B + 1 + bnd c.NUM len) = c.NUM * B + c.NUM * (1 + bnd c.NUM len) from
        by ring, hfill]
  have hw : hash5 c.idNull (ustRoot st3.tree) c.epoch n 0 =
      hash5 c.idNull (st3.roots.getD (c.NUM * st3.bus.length) 0) c.epoch
        (st3.toNonces.getD (st3.bus.length - 1) 0) 0 := by
    have hidx : c.NUM * st3.bus.length = st3.roots.length - 1 := by omega
    have h1 : st3.roots.getD (c.NUM * st3.bus.length) 0 = ustRoot st3.tree := by
      rw [hidx, hal3.2]
    have h2 : st3.toNonces.getD (st3.bus.length - 1) 0 = n := by
      rw [e3toN, e3bus]
      have e : st2.bus.length - 1 = st2.toNonces.length - 1 := by omega
      rw [e, hlast2]
    rw [h1, h2]
  have hg4 : chainGood c st3.roots
      (st3.bus ++ [hash5 c.idNull (ustRoot st3.tree) c.epoch n 0]) st3.toNonces :=
    chainGood_bus_push c _ _ _ _ hg3 hw
  have hns : nonceStep c K db st n = tailStep c K n st3 := rfl
  rw [hns]
  refine ⟨?_, ?_, hal3, ?_, ?_⟩
  · show (st3.bus ++ [hash5 c.idNull (ustRoot st3.tree) c.epoch n 0]).length =
      st3.toNonces.length + 1
    simp only [List.length_append, List.length_singleton]
    rw [e3bus, e3toN, ht2]
  · show st3.roots.length = c.NUM * st3.toNonces.length + 1
    have e : st3.toNonces.length = st3.bus.length := by rw [e3toN, e3bus, ht2]
    rw [e]
    omega
  · exact hg4
  · show (st3.bus ++ [hash5 c.idNull (ustRoot st3.tree) c.epoch n 0]).getD 0 0 = v
    rw [List.getD_append _ _ _ _ (by rw [e3bus]; omega)]
    rw [e3bus]
    exact hh2

theorem outerInv_foldl (c : PACtx) (v K : Nat) (db : Nat → List Att) (hNUM : 0 < c.NUM) :
    ∀ (ns : List Nat) (st : PAState), OuterInv c v st →
      OuterInv c v (ns.foldl (nonceStep c K db) st) := by
  intro ns
  induction ns with
  | nil =>
      intro st h
      exact h
  | cons n rest ih =>
      intro st h
      exact ih _ (outerInv_nonceStep c v K db st n hNUM h)

theorem outerInv_init (c : PACtx) (leaves : List Leaf) :
    OuterInv c (startBlindedUserState c leaves) (initPA c leaves) := by
  refine ⟨?_, ?_, ⟨?_, ?_⟩, ?_, ?_⟩
  · simp [initPA]
  · simp [initPA]
  · simp [initPA]
  · simp [initPA]
  · intro i hi
    simp [initPA] at hi
  · simp [initPA, startBlindedUserState]

theorem attLoop_delta (c : PACtx) (n : Nat) :
    ∀ (as : List Att) (i : Nat) (st : PAState), ∃ k : Nat,
      (attLoop c n i as st).fromNonces.length = st.fromNonces.length + k ∧
      (attLoop c n i as st).toNonces.length = st.toNonces.length + k := by
  intro as
  induction as with
  | nil =>
      intro i st
      exact ⟨0, rfl, rfl⟩
  | cons a rest ih =>
      intro i st
      obtain ⟨k, h1, h2⟩ := ih (i + 1) (attStep c n i a st)
      have hloop : attLoop c n i (a :: rest) st =
          attLoop c n (i + 1) rest (attStep c n i a st) := rfl
      by_cases hcond : i ≠ 0 ∧ i % c.NUM = 0 ∧ i ≠ c.NUM - 1
      · have ef : (attStep c n i a st).fromNonces = st.fromNonces ++ [n] := by
          rw [attStep, if_pos hcond]
          rfl
        have et : (attStep c n i a st).toNonces = st.toNonces ++ [n] := by
          rw [attStep, if_pos hcond]
          rfl
        refine ⟨k + 1, ?_, ?_⟩
        · rw [hloop, h1, ef]
          simp only [List.length_append, List.length_singleton]
          omega
        · rw [hloop, h2, et]
          simp only [List.length_append, List.length_singleton]
          omega
      · have ef : (attStep c n i a st).fromNonces = st.fromNonces := by
          rw [attStep, if_neg hcond]
          rfl
        have et : (attStep c n i a st).toNonces = st.toNonces := by
          rw [attStep, if_neg hcond]
          rfl
        refine ⟨k, ?_, ?_⟩
        · rw [hloop, h1, ef]
        · rw [hloop, h2, et]

theorem nonceStep_balance (c : PACtx) (K : Nat) (db : Nat → List Att)
    (st : PAState) (n : Nat) : ∃ k : Nat,
    (nonceStep c K db st n).fromNonces.length =
      st.fromNonces.length + k + (if n ≠ K - 1 then 1 else 0) ∧
    (nonceStep c K db st n).toNonces.length = st.toNonces.length + 1 + k := by
  obtain ⟨k, h1, h2⟩ :=
    attLoop_delta c n (db (genEpochKey c.idNull c.epoch n)) 0 (introStep n st)
  set as := db (genEpochKey c.idNull c.epoch n) with has
  set st2 := attLoop c n 0 as (introStep n st) with hst2
  set pad := filledNum c.NUM as.length - as.length with hpad
  have hspec := padLoop_spec pad st2
  set st3 := padLoop pad st2 with hst3
  have e3f : st3.fromNonces = st2.fromNonces := by rw [hspec]
  have e3t : st3.toNonces = st2.toNonces := by rw [hspec]
  have hns : nonceStep c K db st n = tailStep c K n st3 := rfl
  have hintroF : (introStep n st).fromNonces = st.fromNonces := rfl
  have hintroT : (introStep n st).toNonces = st.toNonces ++ [n] := rfl
  rw [hintroF] at h1
  rw [hintroT] at h2
  have htailF : (tailStep c K n st3).fromNonces =
      if n ≠ K - 1 then st3.fromNonces ++ [n] else st3.fromNonces := rfl
  have htailT : (tailStep c K n st3).toNonces = st3.toNonces := rfl
  refine ⟨k, ?_, ?_⟩
  · rw [hns, htailF]
    by_cases hn : n ≠ K - 1
    · rw [if_pos hn, if_pos hn]
      simp only [List.length_append, List.length_singleton, e3f]
      omega
    · rw [if_neg hn, if_neg hn]
      rw [e3f]
      omega
  · rw [hns, htailT, e3t, h2]
    simp only [List.length_append, List.length_singleton]

theorem balance_foldl_ne (c : PACtx) (K : Nat) (db : Nat → List Att) :
    ∀ (ns : List Nat), (∀ m ∈ ns, m ≠ K - 1) →
    ∀ st : PAState, st.fromNonces.length = st.toNonces.length + 1 →
    (ns.foldl (nonceStep c K db) st).fromNonces.length =
      (ns.foldl (nonceStep c K db) st).toNonces.length + 1 := by
  intro ns
  induction ns with
  | nil =>
      intro _ st h
      exact h
  | cons n rest ih =>
      intro hmem st h
      obtain ⟨k, h1, h2⟩ := nonceStep_balance c K db st n
      rw [if_pos (hmem n (List.mem_cons_self _ _))] at h1
      exact ih (fun m hm => hmem m (List.mem_cons_of_mem _ hm)) (nonceStep c K db st n)
        (by omega)

theorem balance_assemble (c : PACtx) (K : Nat) (db : Nat → List Att) (leaves : List Leaf)
    (hK : 0 < K) :
    (assembleUST c K db leaves).fromNonces.length =
      (assembleUST c K db leaves).toNonces.length ∧
    0 < (assembleUST c K db leaves).toNonces.length := by
  obtain ⟨K', rfl⟩ : ∃ K', K = K' + 1 := ⟨K - 1, by omega⟩
  unfold assembleUST
  rw [List.range_succ, List.foldl_append]
  set stMid := (List.range K').foldl (nonceStep c (K' + 1) db) (initPA c leaves) with hstMid
  have hmid : stMid.fromNonces.length = stMid.toNonces.length + 1 := by
    rw [hstMid]
    exact balance_foldl_ne c (K' + 1) db (List.range K')
      (fun m hm => by
        have := List.mem_range.mp hm
        omega)
      (initPA c leaves) (by simp [initPA])
  obtain ⟨k, h1, h2⟩ := nonceStep_balance c (K' + 1) db stMid K'
  rw [if_neg (by omega)] at h1
  constructor
  · simp only [List.foldl_cons, List.foldl_nil]
    omega
  · simp only [List.foldl_cons, List.foldl_nil]
    omega

theorem getD_map_range {α : Type} (f : Nat → α) (m i : Nat) (d : α) (h : i < m) :
    ((List.range m).map f).getD i d = f i := by
  rw [List.getD_eq_getElem?_getD, List.getElem?_map, List.getElem?_range h]
  rfl

theorem getD_take (l : List Nat) (m j d : Nat) (h : j < m) :
    (l.take m).getD j d = l.getD j d := by
  rw [List.getD_eq_getElem?_getD, List.getElem?_take, List.getD_eq_getElem?_getD]
  simp [h]

theorem getD_drop (l : List Nat) (a j d : Nat) :
    (l.drop a).getD j d = l.getD (a + j) d := by
  rw [List.getD_eq_getElem?_getD, List.getElem?_drop, List.getD_eq_getElem?_getD]

/-- The default PABatch used only as the out-of-range value of getD. -/
def dummyBatch : PABatch := ⟨0, 0, [], 0, 0, []⟩

section ClaimC2

/-- C2: in the inputs assembled by genUserStateTransitionProofs, the batch
chain is exact: batch 0 declares as input blinded user state the
start-phase output hash5(identityNullifier, userStateTreeRoot, fromEpoch,
nonce 0, 0), and every later batch i+1 declares as input exactly the
declared output blinded user state of batch i — the checkpoint hash of
batch i's last intermediate user-state-tree root and of batch i's
to_nonce. -/
theorem c2_batch_chaining (c : PACtx) (K : Nat) (db : Nat → List Att)
    (leaves : List Leaf) (hNUM : 0 < c.NUM) (hK : 0 < K) :
    0 < (mkBatches c.NUM (assembleUST c K db leaves)).length ∧
    ((mkBatches c.NUM (assembleUST c K db leaves)).getD 0 dummyBatch).inputBlindedUserState =
      startBlindedUserState c leaves ∧
    (∀ i : Nat, i + 1 < (mkBatches c.NUM (assembleUST c K db leaves)).length →
      ((mkBatches c.NUM (assembleUST c K db leaves)).getD (i + 1)
          dummyBatch).inputBlindedUserState =
        batchOutputBUS c
          ((mkBatches c.NUM (assembleUST c K db leaves)).getD i dummyBatch)) := by
  have hinv : OuterInv c (startBlindedUserState c leaves) (assembleUST c K db leaves) :=
    outerInv_foldl c (startBlindedUserState c leaves) K db hNUM (List.range K)
      (initPA c leaves) (outerInv_init c leaves)
  obtain ⟨hbal, hpos⟩ := balance_assemble c K db leaves hK
  set st := assembleUST c K db leaves with hst
  have hlenb : (mkBatches c.NUM st).length = st.fromNonces.length := by
    simp [mkBatches]
  have hbatch : ∀ i, i < st.fromNonces.length →
      (mkBatches c.NUM st).getD i dummyBatch =
        { fromNonce := st.fromNonces.getD i 0
          toNonce := st.toNonces.getD i 0
          rootSlice := (st.roots.drop (c.NUM * i)).take (c.NUM + 1)
          inputBlindedUserState := st.bus.getD i 0
          hashChainStarter := st.hcStarter.getD i 0
          selectors := (st.selectors.drop (c.NUM * i)).take c.NUM } := by
    intro i hi
    unfold mkBatches
    exact getD_map_range _ _ _ _ hi
  refine ⟨?_, ?_, ?_⟩
  · rw [hlenb]
    omega
  · rw [hbatch 0 (by omega)]
    exact hinv.head
  · intro i hi
    rw [hlenb] at hi
    rw [hbatch (i + 1) (by omega), hbatch i (by omega)]
    have higood : i + 1 < st.bus.length := by
      rw [hinv.blen]
      omega
    have hchain := hinv.good i higood
    have hslice : ((st.roots.drop (c.NUM * i)).take (c.NUM + 1)).getD c.NUM 0 =
        st.roots.getD (c.NUM * (i + 1)) 0 := by
      rw [getD_take _ _ _ _ (Nat.lt_succ_self _), getD_drop, Nat.mul_succ]
    show st.bus.getD (i + 1) 0 = batchOutputBUS c _
    unfold batchOutputBUS
    rw [hchain, hslice]

/-- Witness for c2_batch_chaining: two attestations with batch size 1 and
one nonce produce two chained batches over the concrete state. -/
theorem c2_batch_chaining_witness :
    0 < (mkBatches 1 (assembleUST ⟨1, 3, 1⟩ 1 (fun _ => [⟨1, 2, 0, 0, 0⟩, ⟨1, 0, 3, 0, 0⟩])
        stC7.latestUserStateLeaves)).length ∧
    ((mkBatches 1 (assembleUST ⟨1, 3, 1⟩ 1 (fun _ => [⟨1, 2, 0, 0, 0⟩, ⟨1, 0, 3, 0, 0⟩])
        stC7.latestUserStateLeaves)).getD 0 dummyBatch).inputBlindedUserState =
      startBlindedUserState ⟨1, 3, 1⟩ stC7.latestUserStateLeaves ∧
    (∀ i : Nat, i + 1 < (mkBatches 1 (assembleUST ⟨1, 3, 1⟩ 1
        (fun _ => [⟨1, 2, 0, 0, 0⟩, ⟨1, 0, 3, 0, 0⟩])
        stC7.latestUserStateLeaves)).length →
      ((mkBatches 1 (assembleUST ⟨1, 3, 1⟩ 1 (fun _ => [⟨1, 2, 0, 0, 0⟩, ⟨1, 0, 3, 0, 0⟩])
          stC7.latestUserStateLeaves)).getD (i + 1) dummyBatch).inputBlindedUserState =
        batchOutputBUS ⟨1, 3, 1⟩
          ((mkBatches 1 (assembleUST ⟨1, 3, 1⟩ 1
              (fun _ => [⟨1, 2, 0, 0, 0⟩, ⟨1, 0, 3, 0, 0⟩])
              stC7.latestUserStateLeaves)).getD i dummyBatch)) :=
  c2_batch_chaining ⟨1, 3, 1⟩ 1 (fun _ => [⟨1, 2, 0, 0, 0⟩, ⟨1, 0, 3, 0, 0⟩])
    stC7.latestUserStateLeaves (by decide) (by decide)

end ClaimC2

end Unirep
